import Mathlib

/-!
FED3WAN telemetry frame encoder

A shallow embedding of `src/FED3WAN.h`: the field codec (`put`, `put2`, `put2sf`,
`put2uf`, `put2u`, `put4u`, `putV`), the checksum routine `calcCRC`, the two category
lookups, the frame assembly at the end of `run` and `sendTxBuffer`.

Conventions of the embedding
* `uint8_t`, `uint16_t`, `uint32_t` and `unsigned int` values are natural numbers; every
  narrowing conversion of the source is an explicit `%`.
* `int` and `int32_t` values are integers; `>>` on them is the arithmetic shift.
* `float` values are exact rationals, a conversion to an integer type truncates toward zero.
* `uint8_t buf[44]` and `uint8_t au8Buffer[44]` are lists, `p` is the offset `p - buf`.
* the clock, the millisecond counter and the serial line are external: what they return
  is an argument, what is written to the line is returned.
-/

/-- Modelled from the spec: the device object `FED3` declared in `FED3.h`, which is not
part of the sources. Only the fields read by `FED3WAN::run` are kept: the counts,
durations and identifiers are `int`, the battery voltage is a `float` and the two labels
are strings. -/
structure FED3 where
  FED : Int
  sessiontype : String
  measuredvbat : ℚ
  numMotorTurns : Int
  FR : Int
  Event : String
  leftInterval : Int
  rightInterval : Int
  retInterval : Int
  LeftCount : Int
  RightCount : Int
  PelletCount : Int
  BlockPelletCount : Int

/-- The data members of `class FED3WAN`. -/
structure FED3WAN where
  buf : List Nat
  p : Nat
  u16timeOut : Nat
  u32time : Nat
  u32timeOut : Nat
  au8Buffer : List Nat
  u8BufferSize : Nat
  u16OutCnt : Nat
  sw_version : List Nat

namespace FED3WAN

/-- The value of `sizeof(this->buf)`. -/
def BUF_SIZE : Nat := 44

/-- The macro `HEADER_LENGTH`. -/
def HEADER_LENGTH : Nat := 4

/-- The constant `kT35`. -/
def kT35 : Nat := 5

/-- Conversion of a signed value to `uint8_t`. -/
def toU8 (x : Int) : Nat := (x % 256).toNat

/-- Conversion of a signed value to `uint16_t`. -/
def toU16 (x : Int) : Nat := (x % 65536).toNat

/-- Conversion of a signed value to `uint32_t`. -/
def toU32 (x : Int) : Nat := (x % 4294967296).toNat

/-- Conversion of a `float` to an integer type: the fractional part is discarded. -/
def truncFloat (x : ℚ) : Int := if 0 ≤ x then ⌊x⌋ else ⌈x⌉

/-- The member `getn`: the number of bytes staged so far. -/
def getn (self : FED3WAN) : Nat := self.p

/-- The member `getbase`. -/
def getbase (self : FED3WAN) : List Nat := self.buf

/-- The staged message: the `getn()` bytes starting at `getbase()`. -/
def payload (self : FED3WAN) : List Nat := self.getbase.take self.getn

/-- The member `CharIsPunctuation`. -/
def CharIsPunctuation (c : Nat) : Bool := c == 46

/-- The member `getVersion`. An index outside `sw_version[8]` has no defined behaviour in
the source; here such a store leaves the array as it is. -/
def getVersion (self : FED3WAN) (c : Nat) (nIndex : Nat) : FED3WAN :=
  let ver := toU8 ((c : Int) - 48)
  { self with
    sw_version := self.sw_version.set nIndex ((self.sw_version.getD nIndex 0 * 10 + ver) % 256) }

/-- The body of the inner loop of `calcCRC`: one shift of `temp`. -/
def crcShift (temp : Nat) : Nat :=
  let flag := temp &&& 0x0001
  let temp := temp >>> 1
  if flag ≠ 0 then temp ^^^ 0xA001 else temp

/-- The body of the outer loop of `calcCRC`: one byte is folded into `temp`. -/
def crcByte (au8Buffer : List Nat) (temp : Nat) (i : Nat) : Nat :=
  let temp := temp ^^^ au8Buffer.getD i 0
  (List.range 8).foldl (fun t _ => crcShift t) temp

/-- The member `calcCRC`; `unsigned int` is 32 bits wide. -/
def calcCRC (self : FED3WAN) (u8length : Nat) : Nat :=
  let temp := (List.range u8length).foldl (crcByte self.au8Buffer) 0xFFFF
  let temp2 := temp >>> 8
  let temp := ((temp <<< 8) % 4294967296) ||| temp2
  let temp := temp &&& 0xFFFF
  temp % 65536

/-- The member `sendTxBuffer`; `millis` is what `millis()` returns. The second component is
the byte sequence handed to `mySerial.write`. -/
def sendTxBuffer (self : FED3WAN) (millis : Nat) : FED3WAN × List Nat :=
  let u16crc := self.calcCRC self.u8BufferSize
  let s1 : FED3WAN := { self with
    au8Buffer := self.au8Buffer.set self.u8BufferSize ((u16crc >>> 8) % 256),
    u8BufferSize := (self.u8BufferSize + 1) % 256 }
  let s2 : FED3WAN := { s1 with
    au8Buffer := s1.au8Buffer.set s1.u8BufferSize ((u16crc &&& 0x00ff) % 256),
    u8BufferSize := (s1.u8BufferSize + 1) % 256 }
  let written := s2.au8Buffer.take s2.u8BufferSize
  ({ s2 with
      u8BufferSize := 0,
      u32timeOut := (millis + s2.u16timeOut) % 4294967296,
      u16OutCnt := (s2.u16OutCnt + 1) % 65536 },
   written)

/-- The member `put`. -/
def put (self : FED3WAN) (c : Nat) : FED3WAN :=
  if self.p < BUF_SIZE then
    { self with buf := self.buf.set self.p c, p := self.p + 1 }
  else
    self

/-- The overload `put2(uint32_t)`. -/
def put2_uint32 (self : FED3WAN) (v : Nat) : FED3WAN :=
  let v := if v > 0xFFFF then 0xFFFF else v
  (self.put ((v >>> 8) % 256)).put (v % 256)

/-- The overload `put2(int32_t)`. -/
def put2_int32 (self : FED3WAN) (v : Int) : FED3WAN :=
  let v := if v < -0x8000 then -0x8000 else if v > 0x7FFF then 0x7FFF else v
  (self.put (toU8 (v >>> (8 : Nat)))).put (toU8 v)

/-- The member `put2sf`. -/
def put2sf (self : FED3WAN) (v : ℚ) : FED3WAN :=
  let iv : Int :=
    if v > 32766.5 then 0x7fff
    else if v < -32767.5 then -0x8000
    else truncFloat (v + 0.5)
  self.put2_int32 iv

/-- The member `put2uf`. -/
def put2uf (self : FED3WAN) (v : ℚ) : FED3WAN :=
  let iv : Nat :=
    if v > 65535.5 then 0xffff
    else if v < 0.5 then 0
    else toU32 (truncFloat (v + 0.5))
  self.put2_uint32 iv

/-- The member `put2u`. -/
def put2u (self : FED3WAN) (v : Int) : FED3WAN :=
  let v := if v < 0 then 0 else if v > 0xFFFF then 0xFFFF else v
  self.put2_uint32 (toU32 v)

/-- The member `put4u`. -/
def put4u (self : FED3WAN) (v : Nat) : FED3WAN :=
  (((self.put ((v >>> 24) % 256)).put ((v >>> 16) % 256)).put ((v >>> 8) % 256)).put (v % 256)

/-- The member `putV`. -/
def putV (self : FED3WAN) (V : ℚ) : FED3WAN :=
  self.put2sf (V * 4096.0 + 0.5)

/-- The initialiser of the map `session` in `sessionType`. -/
def session : List (String × Int) :=
  [("Classic", 1), ("ClosedEcon_PR1", 2), ("Dispenser", 3), ("Ext", 4), ("FR1", 5),
   ("FRCustom", 6), ("FreeFeed", 7), ("Menu", 8), ("OptoStim", 9), ("Pavlov", 10),
   ("Prob_Reversal", 11), ("ProgRat", 12), ("RndRatio", 13)]

/-- The member `sessionType`: `find` on the map, `0` when the key is absent. -/
def sessionType (fed3_session : String) : Nat :=
  match session.lookup fed3_session with
  | some second => toU8 second
  | none => 0

/-- The enumeration `Events`. -/
inductive Events where
  | left | leftshort | leftwithpellet | leftintimeout | leftduringdispense
  | right | rightshort | rightwithpellet | rightintimeout | rightduringdispense
  | pellet
  deriving DecidableEq, Repr

/-- The numeric value of an enumerator of `Events`: `left = 1`, then counting up. -/
def Events.code : Events → Nat
  | .left => 1
  | .leftshort => 2
  | .leftwithpellet => 3
  | .leftintimeout => 4
  | .leftduringdispense => 5
  | .right => 6
  | .rightshort => 7
  | .rightwithpellet => 8
  | .rightintimeout => 9
  | .rightduringdispense => 10
  | .pellet => 11

/-- The initialiser of the map `event` in `run`. -/
def event : List (String × Int) :=
  [("Left", Events.left.code), ("LeftShort", Events.leftshort.code),
   ("LeftWithPellet", Events.leftwithpellet.code),
   ("LeftinTimeout", Events.leftintimeout.code),
   ("LeftDuringDispense", Events.leftduringdispense.code),
   ("Right", Events.right.code), ("RightShort", Events.rightshort.code),
   ("RightWithPellet", Events.rightwithpellet.code),
   ("RightinTimeout", Events.rightintimeout.code),
   ("RightDuringDispense", Events.rightduringdispense.code),
   ("Pellet", Events.pellet.code)]

/-- The value `run` gives to `event_active`: `find` on the map `event`, `0` when absent. -/
def event_active (label : String) : Nat :=
  match event.lookup label with
  | some second => toU8 second
  | none => 0

/-- The version loop of `run` from index `i` on: `rest` holds `VER[i], VER[i+1], ...` up to
`len`, and `j` is the group index (`uint8_t`). -/
def versionLoop (self : FED3WAN) (j : Nat) : List Nat → FED3WAN
  | [] => self
  | c :: rest =>
    if c = 0 then self
    else if ! CharIsPunctuation c then versionLoop (self.getVersion c j) j rest
    else versionLoop self ((j + 1) % 256) rest

/-- The body of the loop of `run` that stages one version byte and clears its accumulator. -/
def putVersionByte (self : FED3WAN) (nIndex : Nat) : FED3WAN :=
  let s := self.put (self.sw_version.getD nIndex 0)
  { s with sw_version := s.sw_version.set nIndex 0 }

/-- The loop of `run` that stages the three version bytes and clears the accumulators. -/
def putVersion (self : FED3WAN) : FED3WAN :=
  (List.range 3).foldl putVersionByte self

/-- The value `run` gives to `event_time`. -/
def eventTime (fed3 : FED3) (event_active : Nat) : Nat :=
  if event_active > 0 ∧ event_active < 6 then
    toU16 (Int.tdiv fed3.leftInterval 4)
  else if event_active > 5 ∧ event_active < 11 then
    toU16 (Int.tdiv fed3.rightInterval 4)
  else if event_active = 11 then
    toU16 (Int.tdiv fed3.retInterval 4)
  else 0

/-- The first part of `run`, up to the block pellet count: the message is staged in `buf`.
`VER` is the character array of the version macro of `FED3.h` (terminator included) and
`unixtime` is what `rtc.now().unixtime()` returns. -/
def runEncode (self : FED3WAN) (fed3 : FED3) (VER : List Nat) (unixtime : Nat) : FED3WAN :=
  let s : FED3WAN := { self with p := 0 }
  let s := s.put4u (unixtime % 4294967296)
  let len := VER.length % 256
  let s := s.versionLoop 0 (VER.take len)
  let s := s.putVersion
  let device_number := toU16 fed3.FED
  let s := s.put2u device_number
  let session_type := sessionType fed3.sessiontype
  let s := s.put session_type
  let s := s.putV fed3.measuredvbat
  let s := s.put4u (toU32 (fed3.numMotorTurns + 1))
  let s := s.put2u fed3.FR
  let ev := event_active fed3.Event
  let s := s.put ev
  let event_time := eventTime fed3 ev
  let s := s.put2u event_time
  let s := s.put4u (toU32 fed3.LeftCount)
  let s := s.put4u (toU32 fed3.RightCount)
  let s := s.put4u (toU32 fed3.PelletCount)
  s.put2u fed3.BlockPelletCount

/-- The second part of `run`: the header and the staged message are copied to `au8Buffer`
and `sendTxBuffer` is called; `millis` and `millis2` are the two readings of `millis()`. -/
def runSend (self : FED3WAN) (millis millis2 : Nat) : FED3WAN × List Nat :=
  let pMessage := self.getbase
  let nMessage := self.getn
  let a := self.au8Buffer.set 0 0x01
  let a := a.set 1 0x00
  let a := a.set 2 0x02
  let a := a.set 3 (nMessage % 256)
  let a := (List.range nMessage).foldl
    (fun a nIndex => a.set (nIndex + HEADER_LENGTH) (pMessage.getD nIndex 0)) a
  let s : FED3WAN := { self with au8Buffer := a, u8BufferSize := (nMessage + HEADER_LENGTH) % 256 }
  let r := s.sendTxBuffer millis
  ({ r.1 with u32time := (millis2 + kT35) % 4294967296 }, r.2)

/-- The member `run`. -/
def run (self : FED3WAN) (fed3 : FED3) (VER : List Nat) (unixtime millis millis2 : Nat) :
    FED3WAN × List Nat :=
  (self.runEncode fed3 VER unixtime).runSend millis millis2

/-! ## Definitions used to state the properties -/

/-- Big-endian encoding of an unsigned 16-bit value. -/
def be16 (x : Nat) : List Nat := [x / 256 % 256, x % 256]

/-- Big-endian encoding of an unsigned 32-bit value. -/
def be32 (x : Nat) : List Nat := [x / 16777216 % 256, x / 65536 % 256, x / 256 % 256, x % 256]

/-- The value of `v` clamped to the unsigned 16-bit range. -/
def clampU16 (v : Int) : Nat := (max 0 (min v 65535)).toNat

/-- The value of `v` clamped to the signed 16-bit range. -/
def clampS16 (v : Int) : Int := max (-32768) (min v 32767)

/-- Two bytes read as a signed big-endian 16-bit integer. -/
def decodeS16 (b0 b1 : Nat) : Int :=
  if b0 * 256 + b1 < 32768 then ((b0 * 256 + b1 : Nat) : Int) else ((b0 * 256 + b1 : Nat) : Int) - 65536

/-- A state with both buffers zeroed, nothing staged and the version accumulators clear. -/
def fresh : FED3WAN :=
  { buf := List.replicate 44 0, p := 0, u16timeOut := 0, u32time := 0, u32timeOut := 0,
    au8Buffer := List.replicate 44 0, u8BufferSize := 0, u16OutCnt := 0,
    sw_version := List.replicate 8 0 }

/-- The state `s2` is `s1` with the bytes `bs` staged after the ones already there. -/
def Staged (s1 s2 : FED3WAN) (bs : List Nat) : Prop :=
  s2.p = s1.p + bs.length ∧ s2.buf.length = s1.buf.length ∧ s2.payload = s1.payload ++ bs


/-- One clock of the bit-serial CRC register with the reflected polynomial `0xA001`: the
message bit is combined with the low bit of the register, the register moves one place to
the right and the polynomial is added when the combined bit is set. -/
def crc16Feed (crc : Nat) (bit : Bool) : Nat :=
  if (crc % 2 == 1) != bit then crc / 2 ^^^ 0xA001 else crc / 2

/-- The eight bits of a byte, least significant first. -/
def bitsLSBFirst (b : Nat) : List Bool := (List.range 8).map b.testBit

/-- The reference CRC-16/MODBUS of a message: register preset to `0xFFFF`, message bits fed
least significant first, no final inversion. -/
def crc16Modbus (msg : List Nat) : Nat :=
  msg.foldl (fun crc b => (bitsLSBFirst b).foldl crc16Feed crc) 0xFFFF

/-- The two bytes of a 16-bit value exchanged. -/
def swap16 (x : Nat) : Nat := x % 256 * 256 + x / 256 % 256

/-- A state whose outbound buffer starts with the nine ASCII bytes of `123456789`. -/
def checkVector : FED3WAN :=
  { fresh with
    au8Buffer := [0x31, 0x32, 0x33, 0x34, 0x35, 0x36, 0x37, 0x38, 0x39] ++ List.replicate 35 0 }

/-- What `calcCRC(4 + n)` returns when `au8Buffer` holds the header followed by the staged
message of `s`. -/
def frameCRC (s : FED3WAN) : Nat :=
  ({ s with au8Buffer := [0x01, 0x00, 0x02, s.getn] ++ s.payload } : FED3WAN).calcCRC (4 + s.getn)

/-- A state with the two bytes `AA BB` staged. -/
def twoStaged : FED3WAN :=
  { fresh with buf := [0xAA, 0xBB] ++ List.replicate 42 0, p := 2 }

/-- The integer that `put2sf` hands to `put2` for the value `v`. -/
def sfCode (v : ℚ) : Int :=
  if v > 32766.5 then 32767 else if v < -32767.5 then -32768 else truncFloat (v + 0.5)

/-- Big-endian two-complement encoding of a signed 16-bit value. -/
def s16be (x : Int) : List Nat := [toU8 (x >>> (8 : Nat)), toU8 x]

/-- The device snapshot of the end-to-end scenario. -/
def sampleDevice : FED3 :=
  { FED := 7, sessiontype := "FreeFeed", measuredvbat := 3.70, numMotorTurns := 4, FR := 1,
    Event := "Pellet", leftInterval := 0, rightInterval := 0, retInterval := 8,
    LeftCount := 0, RightCount := 0, PelletCount := 1, BlockPelletCount := 1 }

/-- The bytes `bs` handed to `put` one after the other. -/
def putAll (s : FED3WAN) (bs : List Nat) : FED3WAN := bs.foldl put s

/-- A call of one of the put members, with its argument. -/
inductive PutCall where
  | byte (c : Nat)
  | u32 (v : Nat)
  | i32 (v : Int)
  | sf (v : ℚ)
  | uf (v : ℚ)
  | u (v : Int)
  | four (v : Nat)
  | volt (V : ℚ)

/-- The member that a `PutCall` stands for, applied to a state. -/
def PutCall.run (s : FED3WAN) : PutCall → FED3WAN
  | .byte c => s.put c
  | .u32 v => s.put2_uint32 v
  | .i32 v => s.put2_int32 v
  | .sf v => s.put2sf v
  | .uf v => s.put2uf v
  | .u v => s.put2u v
  | .four v => s.put4u v
  | .volt V => s.putV V

/-- A sequence of put calls made one after the other. -/
def putCalls (s : FED3WAN) (calls : List PutCall) : FED3WAN := calls.foldl PutCall.run s

/-- A state with one free byte left in the staging buffer. -/
def oneFree : FED3WAN := { fresh with p := 43 }

/-- A state whose staging buffer is full. -/
def full : FED3WAN := { fresh with p := 44 }

/-- The three accumulators `sw_version[0..2]` as the version loop of `run` leaves them
for the character array `VER`, starting from the state `self`. -/
def versionBytes (self : FED3WAN) (VER : List Nat) : List Nat :=
  [(self.versionLoop 0 (VER.take (VER.length % 256))).sw_version.getD 0 0,
   (self.versionLoop 0 (VER.take (VER.length % 256))).sw_version.getD 1 0,
   (self.versionLoop 0 (VER.take (VER.length % 256))).sw_version.getD 2 0]

/-- The fields that follow the version bytes in the message, in the order `run` stages
them: device id, session code, voltage, motor turns plus one, `FR`, event code, event
time, the three counts and the block pellet count. -/
def deviceFields (fed3 : FED3) : List Nat :=
  be16 (toU16 fed3.FED) ++
  [sessionType fed3.sessiontype] ++
  s16be (sfCode (fed3.measuredvbat * 4096 + 0.5)) ++
  be32 (toU32 (fed3.numMotorTurns + 1)) ++
  be16 (clampU16 fed3.FR) ++
  [event_active fed3.Event] ++
  be16 (eventTime fed3 (event_active fed3.Event)) ++
  be32 (toU32 fed3.LeftCount) ++
  be32 (toU32 fed3.RightCount) ++
  be32 (toU32 fed3.PelletCount) ++
  be16 (clampU16 fed3.BlockPelletCount)

/-- The scenario snapshot with a device id, a fixed ratio and a left poke interval that do
not fit 16 bits: `FED = 65543`, `FR = 70000`, event `Left` with `leftInterval = 262148`
(a quarter of it is 65537). -/
def wideDevice : FED3 :=
  { sampleDevice with FED := 65543, FR := 70000, Event := "Left", leftInterval := 262148 }

/-- The scenario snapshot with the negative device id `-1`. -/
def negativeIdDevice : FED3 := { sampleDevice with FED := -1 }

/-- A state whose outbound buffer holds the header `01 00 02 02` and the message `AA BB`,
ready for `sendTxBuffer`. -/
def headerStaged : FED3WAN :=
  { fresh with
    au8Buffer := [0x01, 0x00, 0x02, 0x02, 0xAA, 0xBB] ++ List.replicate 38 0,
    u8BufferSize := 6 }

theorem payload_eq (s : FED3WAN) : s.payload = s.buf.take s.p := rfl

theorem put_of_lt (s : FED3WAN) (c : Nat) (h : s.p < BUF_SIZE) :
    s.put c = { s with buf := s.buf.set s.p c, p := s.p + 1 } := by
  simp [put, h]

theorem take_set_succ (l : List Nat) (n c : Nat) (h : n < l.length) :
    (l.set n c).take (n + 1) = l.take n ++ [c] := by
  induction l generalizing n with
  | nil => simp at h
  | cons a t ih =>
    cases n with
    | zero => simp
    | succ k =>
      have hk : k < t.length := by simpa using h
      simp [ih k hk]

theorem put_p (s : FED3WAN) (c : Nat) (h : s.p < BUF_SIZE) : (s.put c).p = s.p + 1 := by
  simp [put, h]

theorem put_length (s : FED3WAN) (c : Nat) : (s.put c).buf.length = s.buf.length := by
  unfold put
  split <;> simp

theorem put_payload (s : FED3WAN) (c : Nat) (h : s.p < BUF_SIZE) (hl : s.buf.length = BUF_SIZE) :
    (s.put c).payload = s.payload ++ [c] := by
  have hp : s.p < s.buf.length := by omega
  rw [put_of_lt s c h]
  simp only [payload, getbase, getn]
  exact take_set_succ s.buf s.p c hp

theorem Staged.trans {s1 s2 s3 : FED3WAN} {bs cs : List Nat}
    (h12 : Staged s1 s2 bs) (h23 : Staged s2 s3 cs) : Staged s1 s3 (bs ++ cs) := by
  obtain ⟨hp, hl, hb⟩ := h12
  obtain ⟨hp2, hl2, hb2⟩ := h23
  refine ⟨?_, ?_, ?_⟩
  · rw [hp2, hp, List.length_append]; omega
  · rw [hl2, hl]
  · rw [hb2, hb, List.append_assoc]

theorem staged_put (s : FED3WAN) (c : Nat) (h : s.p + 1 ≤ BUF_SIZE)
    (hl : s.buf.length = BUF_SIZE) : Staged s (s.put c) [c] :=
  ⟨put_p s c (by omega), put_length s c, put_payload s c (by omega) hl⟩

theorem staged_put2_uint32 (s : FED3WAN) (v : Nat) (h : s.p + 2 ≤ BUF_SIZE)
    (hl : s.buf.length = BUF_SIZE) :
    Staged s (s.put2_uint32 v) (be16 (min v 65535)) := by
  have h1 := staged_put s (((if v > 0xFFFF then 0xFFFF else v) >>> 8) % 256) (by omega) hl
  have h2 := staged_put (s.put (((if v > 0xFFFF then 0xFFFF else v) >>> 8) % 256))
    ((if v > 0xFFFF then 0xFFFF else v) % 256) (by rw [h1.1]; simp; omega) (by rw [h1.2.1, hl])
  have h3 := h1.trans h2
  have e : (if v > 0xFFFF then 0xFFFF else v) = min v 65535 := by
    split <;> omega
  rw [e] at h3
  simpa [put2_uint32, be16, e, Nat.shiftRight_eq_div_pow] using h3

theorem staged_put2_int32 (s : FED3WAN) (v : Int) (h : s.p + 2 ≤ BUF_SIZE)
    (hl : s.buf.length = BUF_SIZE) :
    Staged s (s.put2_int32 v) [toU8 (clampS16 v >>> (8 : Nat)), toU8 (clampS16 v)] := by
  have e : (if v < -0x8000 then -0x8000 else if v > 0x7FFF then 0x7FFF else v) = clampS16 v := by
    unfold clampS16
    split
    · omega
    · split <;> omega
  have h1 := staged_put s (toU8 (clampS16 v >>> (8 : Nat))) (by omega) hl
  have h2 := staged_put (s.put (toU8 (clampS16 v >>> (8 : Nat)))) (toU8 (clampS16 v))
    (by rw [h1.1]; simp; omega) (by rw [h1.2.1, hl])
  have h3 := h1.trans h2
  simpa [put2_int32, e] using h3

theorem decodeS16_clampS16 (v : Int) :
    toU8 (clampS16 v >>> (8 : Nat)) < 256 ∧ toU8 (clampS16 v) < 256 ∧
      decodeS16 (toU8 (clampS16 v >>> (8 : Nat))) (toU8 (clampS16 v)) = clampS16 v := by
  have hc : -32768 ≤ clampS16 v ∧ clampS16 v ≤ 32767 := by
    unfold clampS16; omega
  generalize clampS16 v = c at hc
  have e : c >>> (8 : Nat) = c / 256 := by
    rw [Int.shiftRight_eq_div_pow]; norm_num
  rw [e]
  unfold decodeS16 toU8
  refine ⟨by omega, by omega, ?_⟩
  split <;> omega

theorem staged_put2u (s : FED3WAN) (v : Int) (h : s.p + 2 ≤ BUF_SIZE)
    (hl : s.buf.length = BUF_SIZE) : Staged s (s.put2u v) (be16 (clampU16 v)) := by
  have e : min (toU32 (if v < 0 then 0 else if v > 0xFFFF then 0xFFFF else v)) 65535
      = clampU16 v := by
    unfold toU32 clampU16
    split
    · omega
    · split <;> omega
  have h1 := staged_put2_uint32 s (toU32 (if v < 0 then 0 else if v > 0xFFFF then 0xFFFF else v)) h hl
  rw [e] at h1
  exact h1

theorem staged_put4u (s : FED3WAN) (v : Nat) (h : s.p + 4 ≤ BUF_SIZE)
    (hl : s.buf.length = BUF_SIZE) : Staged s (s.put4u v) (be32 v) := by
  have h1 := staged_put s ((v >>> 24) % 256) (by omega) hl
  have h2 := staged_put (s.put ((v >>> 24) % 256)) ((v >>> 16) % 256)
    (by rw [h1.1]; simp; omega) (by rw [h1.2.1, hl])
  have h12 := h1.trans h2
  have h3 := staged_put ((s.put ((v >>> 24) % 256)).put ((v >>> 16) % 256)) ((v >>> 8) % 256)
    (by rw [h12.1]; simp; omega) (by rw [h12.2.1, hl])
  have h123 := h12.trans h3
  have h4 := staged_put (((s.put ((v >>> 24) % 256)).put ((v >>> 16) % 256)).put ((v >>> 8) % 256))
    (v % 256) (by rw [h123.1]; simp; omega) (by rw [h123.2.1, hl])
  have h := h123.trans h4
  simpa [put4u, be32, Nat.shiftRight_eq_div_pow] using h

theorem truncFloat_nonneg (x : ℚ) (h : 0 ≤ x) : truncFloat x = ⌊x⌋ := by
  simp [truncFloat, h]

theorem truncFloat_neg (x : ℚ) (h : x < 0) : truncFloat x = ⌈x⌉ := by
  simp [truncFloat, not_le.mpr h]

theorem truncFloat_bounds (x : ℚ) (lo hi : Int) (h1 : (lo : ℚ) ≤ x) (h2 : x ≤ (hi : ℚ))
    (hlo : lo ≤ 0) (hhi : 0 ≤ hi) : lo ≤ truncFloat x ∧ truncFloat x ≤ hi := by
  unfold truncFloat
  split
  · next h0 =>
    refine ⟨?_, ?_⟩
    · exact le_trans hlo (Int.floor_nonneg.mpr h0)
    · exact Int.cast_le.mp (le_trans (Int.floor_le x) h2)
  · next h0 =>
    have hx : x < 0 := not_le.mp h0
    refine ⟨?_, ?_⟩
    · exact Int.cast_le.mp (le_trans h1 (Int.le_ceil x))
    · exact le_trans (Int.ceil_le.mpr (by exact_mod_cast hx.le)) hhi

theorem be16_of_le (x : Nat) (h : x ≤ 65535) : be16 x = [x / 256, x % 256] := by
  have : x / 256 % 256 = x / 256 := Nat.mod_eq_of_lt (by omega)
  simp [be16, this]

theorem staged_getn {s1 s2 : FED3WAN} {bs : List Nat} (h : Staged s1 s2 bs) :
    s2.getn = s1.getn + bs.length := h.1

/-! ## The field codec -/

/-- C5: `put2sf` saturates. With two free bytes in the staging buffer, every `v > 32766.5`
is staged as `7F FF` and every `v < -32767.5` as `80 00`; the cursor advances by two. -/
theorem put2sf_saturates (s : FED3WAN) (v : ℚ) (hfree : s.p + 2 ≤ BUF_SIZE)
    (hlen : s.buf.length = BUF_SIZE) :
    (32766.5 < v → (s.put2sf v).payload = s.payload ++ [0x7F, 0xFF]) ∧
    (v < -32767.5 → (s.put2sf v).payload = s.payload ++ [0x80, 0x00]) ∧
    (s.put2sf v).getn = s.getn + 2 := by
  refine ⟨?_, ?_, ?_⟩
  · intro hv
    have h := staged_put2_int32 s 0x7fff hfree hlen
    have e : s.put2sf v = s.put2_int32 0x7fff := by simp [put2sf, hv]
    have b : [toU8 (clampS16 0x7fff >>> (8 : Nat)), toU8 (clampS16 0x7fff)] = [0x7F, 0xFF] := by
      decide
    rw [e, h.2.2, b]
  · intro hv
    have hv2 : ¬ (32766.5 < v) := by
      intro h2
      have : (-32767.5 : ℚ) < 32766.5 := by norm_num
      linarith
    have h := staged_put2_int32 s (-0x8000) hfree hlen
    have e : s.put2sf v = s.put2_int32 (-0x8000) := by simp [put2sf, hv, hv2]
    have b : [toU8 (clampS16 (-0x8000) >>> (8 : Nat)), toU8 (clampS16 (-0x8000))]
        = [0x80, 0x00] := by
      decide
    rw [e, h.2.2, b]
  · exact staged_getn (staged_put2_int32 s _ hfree hlen)

/-- Instance of C5 on an empty buffer: `put2sf(40000.0)` stages `7F FF` and
`put2sf(-40000.0)` stages `80 00`. -/
theorem put2sf_saturates_witness :
    (fresh.put2sf 40000.0).payload = [0x7F, 0xFF] ∧
    (fresh.put2sf (-40000.0)).payload = [0x80, 0x00] :=
  ⟨(put2sf_saturates fresh 40000.0 (by decide) (by decide)).1 (by norm_num),
   (put2sf_saturates fresh (-40000.0) (by decide) (by decide)).2.1 (by norm_num)⟩

/-- C7: `put2u` stages exactly two bytes, the big-endian encoding of `v` clamped to
`[0, 0xFFFF]`: `00 00` for a negative `v`, `FF FF` for `v > 0xFFFF` and `v` itself in
between; `put2(uint32_t)` stages the big-endian encoding of `min(w, 0xFFFF)`. Two free
bytes in the staging buffer are assumed. -/
theorem put2u_clamps (s : FED3WAN) (v : Int) (w : Nat) (hfree : s.p + 2 ≤ BUF_SIZE)
    (hlen : s.buf.length = BUF_SIZE) :
    (v < 0 → (s.put2u v).payload = s.payload ++ [0x00, 0x00]) ∧
    (0xFFFF < v → (s.put2u v).payload = s.payload ++ [0xFF, 0xFF]) ∧
    (0 ≤ v → v ≤ 0xFFFF →
      (s.put2u v).payload = s.payload ++ [v.toNat / 256, v.toNat % 256] ∧
        v.toNat / 256 < 256 ∧ ((v.toNat / 256 * 256 + v.toNat % 256 : Nat) : Int) = v) ∧
    (s.put2u v).getn = s.getn + 2 ∧
    (s.put2_uint32 w).payload = s.payload ++ [min w 0xFFFF / 256, min w 0xFFFF % 256] ∧
    min w 0xFFFF / 256 < 256 ∧
    (s.put2_uint32 w).getn = s.getn + 2 := by
  have hu := staged_put2u s v hfree hlen
  have hw := staged_put2_uint32 s w hfree hlen
  refine ⟨?_, ?_, ?_, staged_getn hu, ?_, by omega, staged_getn hw⟩
  · intro hv
    have e : clampU16 v = 0 := by unfold clampU16; omega
    rw [hu.2.2, e]
    rfl
  · intro hv
    have e : clampU16 v = 65535 := by unfold clampU16; omega
    rw [hu.2.2, e]
    rfl
  · intro h0 h1
    have e : clampU16 v = v.toNat := by unfold clampU16; omega
    refine ⟨?_, by omega, by omega⟩
    rw [hu.2.2, e, be16_of_le _ (by omega)]
  · rw [hw.2.2, be16_of_le _ (by omega)]

/-- Instance of C7 on an empty buffer: `put2u(-5)` stages `00 00` and `put2u(100000)`
stages `FF FF`. -/
theorem put2u_clamps_witness :
    (fresh.put2u (-5)).payload = [0x00, 0x00] ∧ (fresh.put2u 100000).payload = [0xFF, 0xFF] :=
  ⟨(put2u_clamps fresh (-5) 0 (by decide) (by decide)).1 (by decide),
   (put2u_clamps fresh 100000 0 (by decide) (by decide)).2.1 (by decide)⟩

/-- C8: `put2(int32_t)` stages exactly two bytes, the big-endian two-complement encoding
of `v` clamped to `[-0x8000, 0x7FFF]`; reading the two bytes back as a signed big-endian
16-bit integer gives the clamped value. Two free bytes are assumed. -/
theorem put2_int32_roundtrip (s : FED3WAN) (v : Int) (hfree : s.p + 2 ≤ BUF_SIZE)
    (hlen : s.buf.length = BUF_SIZE) :
    ∃ b0 b1 : Nat,
      (s.put2_int32 v).payload = s.payload ++ [b0, b1] ∧
      (s.put2_int32 v).getn = s.getn + 2 ∧
      b0 < 256 ∧ b1 < 256 ∧
      decodeS16 b0 b1 = max (-0x8000) (min v 0x7FFF) ∧
      (b0 : Int) = (max (-0x8000) (min v 0x7FFF) / 256) % 256 ∧
      (b1 : Int) = max (-0x8000) (min v 0x7FFF) % 256 := by
  have h := staged_put2_int32 s v hfree hlen
  have d := decodeS16_clampS16 v
  refine ⟨toU8 (clampS16 v >>> (8 : Nat)), toU8 (clampS16 v), h.2.2, staged_getn h,
    d.1, d.2.1, d.2.2, ?_, ?_⟩
  · have e : clampS16 v >>> (8 : Nat) = clampS16 v / 256 := by
      rw [Int.shiftRight_eq_div_pow]; norm_num
    rw [e]
    unfold toU8 clampS16
    omega
  · unfold toU8 clampS16
    omega

/-- Instance of C8 on an empty buffer with `v = -2`, staged as `FF FE`. -/
theorem put2_int32_roundtrip_witness :
    ∃ b0 b1 : Nat,
      (fresh.put2_int32 (-2)).payload = fresh.payload ++ [b0, b1] ∧
      (fresh.put2_int32 (-2)).getn = fresh.getn + 2 ∧
      b0 < 256 ∧ b1 < 256 ∧
      decodeS16 b0 b1 = max (-0x8000) (min (-2) 0x7FFF) ∧
      (b0 : Int) = (max (-0x8000) (min (-2) 0x7FFF) / 256) % 256 ∧
      (b1 : Int) = max (-0x8000) (min (-2) 0x7FFF) % 256 :=
  put2_int32_roundtrip fresh (-2) (by decide) (by decide)

/-- C10: `put4u` stages exactly four bytes, without clamping, whose big-endian value is
`v`. Four free bytes are assumed. -/
theorem put4u_bigEndian (s : FED3WAN) (v : Nat) (hv : v < 2 ^ 32) (hfree : s.p + 4 ≤ BUF_SIZE)
    (hlen : s.buf.length = BUF_SIZE) :
    ∃ b0 b1 b2 b3 : Nat,
      (s.put4u v).payload = s.payload ++ [b0, b1, b2, b3] ∧
      (s.put4u v).getn = s.getn + 4 ∧
      b0 < 256 ∧ b1 < 256 ∧ b2 < 256 ∧ b3 < 256 ∧
      b0 * 2 ^ 24 + b1 * 2 ^ 16 + b2 * 2 ^ 8 + b3 = v := by
  have h := staged_put4u s v hfree hlen
  refine ⟨v / 16777216 % 256, v / 65536 % 256, v / 256 % 256, v % 256, h.2.2, staged_getn h,
    by omega, by omega, by omega, by omega, ?_⟩
  norm_num at hv ⊢
  omega

/-- Instance of C10 on an empty buffer: `put4u(1700000000)` stages `65 53 F1 00`. -/
theorem put4u_bigEndian_witness :
    ∃ b0 b1 b2 b3 : Nat,
      (fresh.put4u 1700000000).payload = fresh.payload ++ [b0, b1, b2, b3] ∧
      (fresh.put4u 1700000000).getn = fresh.getn + 4 ∧
      b0 < 256 ∧ b1 < 256 ∧ b2 < 256 ∧ b3 < 256 ∧
      b0 * 2 ^ 24 + b1 * 2 ^ 16 + b2 * 2 ^ 8 + b3 = 1700000000 :=
  put4u_bigEndian fresh 1700000000 (by decide) (by decide) (by decide)

/-- C9: with two free bytes, `put2uf` stages the big-endian encoding of `0` when
`v < 0.5`, of `0xFFFF` when `v ≥ 65535.5` and of `⌊v + 0.5⌋` when `0.5 ≤ v < 65535.5`
(the `float` is an exact rational). -/
theorem put2uf_rounds (s : FED3WAN) (v : ℚ) (hfree : s.p + 2 ≤ BUF_SIZE)
    (hlen : s.buf.length = BUF_SIZE) :
    (v < 0.5 → (s.put2uf v).payload = s.payload ++ [0x00, 0x00]) ∧
    (65535.5 ≤ v → (s.put2uf v).payload = s.payload ++ [0xFF, 0xFF]) ∧
    (0.5 ≤ v → v < 65535.5 →
      (s.put2uf v).payload = s.payload ++ [⌊v + 0.5⌋.toNat / 256, ⌊v + 0.5⌋.toNat % 256] ∧
        ⌊v + 0.5⌋.toNat / 256 < 256 ∧ 1 ≤ ⌊v + 0.5⌋) ∧
    (s.put2uf v).getn = s.getn + 2 := by
  refine ⟨?_, ?_, ?_, staged_getn (staged_put2_uint32 s _ hfree hlen)⟩
  · intro hv
    have hv2 : ¬ (65535.5 < v) := by
      intro h2
      have : (0.5 : ℚ) < 65535.5 := by norm_num
      linarith
    have e : s.put2uf v = s.put2_uint32 0 := by simp [put2uf, hv, hv2]
    rw [e, (staged_put2_uint32 s 0 hfree hlen).2.2]
    rfl
  · intro hv
    rcases lt_or_eq_of_le hv with hgt | heq
    · have e : s.put2uf v = s.put2_uint32 0xffff := by simp [put2uf, hgt]
      rw [e, (staged_put2_uint32 s 0xffff hfree hlen).2.2]
      rfl
    · have h1 : ¬ (65535.5 < v) := by rw [← heq]; exact lt_irrefl _
      have h2 : ¬ (v < 0.5) := by rw [← heq]; norm_num
      have h3 : v + 0.5 = ((65536 : Int) : ℚ) := by rw [← heq]; norm_num
      have h4 : truncFloat (v + 0.5) = 65536 := by
        rw [h3, truncFloat_nonneg _ (by norm_num), Int.floor_intCast]
      have e : s.put2uf v = s.put2_uint32 65536 := by
        simp [put2uf, h1, h2, h4, toU32]
      rw [e, (staged_put2_uint32 s 65536 hfree hlen).2.2]
      rfl
  · intro hlo hhi
    have h1 : ¬ (65535.5 < v) := not_lt.mpr hhi.le
    have h2 : ¬ (v < 0.5) := not_lt.mpr hlo
    have h0 : (0 : ℚ) ≤ v + 0.5 := by
      have : (0 : ℚ) ≤ 0.5 := by norm_num
      linarith
    have hf1 : 1 ≤ ⌊v + 0.5⌋ := by
      apply Int.le_floor.mpr
      have : (0.5 : ℚ) + 0.5 = ((1 : Int) : ℚ) := by norm_num
      rw [← this]
      linarith
    have hf2 : ⌊v + 0.5⌋ < 65536 := by
      apply Int.floor_lt.mpr
      have : (65535.5 : ℚ) + 0.5 = ((65536 : Int) : ℚ) := by norm_num
      rw [← this]
      linarith
    have h4 : toU32 (truncFloat (v + 0.5)) = ⌊v + 0.5⌋.toNat := by
      rw [truncFloat_nonneg _ h0]
      unfold toU32
      omega
    have e : s.put2uf v = s.put2_uint32 ⌊v + 0.5⌋.toNat := by
      simp only [put2uf, h1, h2, if_false, h4]
    have hm : min ⌊v + 0.5⌋.toNat 65535 = ⌊v + 0.5⌋.toNat := by omega
    refine ⟨?_, by omega, hf1⟩
    rw [e, (staged_put2_uint32 s _ hfree hlen).2.2, hm, be16_of_le _ (by omega)]

/-- Instance of C9 on an empty buffer: `put2uf(0.25)` stages `00 00`, `put2uf(65535.5)`
stages `FF FF` and `put2uf(258.5)` stages `01 03`. -/
theorem put2uf_rounds_witness :
    (fresh.put2uf 0.25).payload = [0x00, 0x00] ∧
    (fresh.put2uf 65535.5).payload = [0xFF, 0xFF] ∧
    (fresh.put2uf 258.5).payload
      = [⌊(258.5 : ℚ) + 0.5⌋.toNat / 256, ⌊(258.5 : ℚ) + 0.5⌋.toNat % 256] :=
  ⟨(put2uf_rounds fresh 0.25 (by decide) (by decide)).1 (by norm_num),
   (put2uf_rounds fresh 65535.5 (by decide) (by decide)).2.1 (by norm_num),
   ((put2uf_rounds fresh 258.5 (by decide) (by decide)).2.2.1 (by norm_num) (by norm_num)).1⟩

/-! ## The category lookups -/

theorem lookup_cons_ne (k a : String) (v : Int) (t : List (String × Int)) (h : ¬ k = a) :
    List.lookup k ((a, v) :: t) = List.lookup k t := by
  have b : (k == a) = false := beq_false_of_ne h
  simp [List.lookup, b]

theorem sessionType_cases (l : String) :
    (l ∈ ["Classic", "ClosedEcon_PR1", "Dispenser", "Ext", "FR1", "FRCustom", "FreeFeed",
        "Menu", "OptoStim", "Pavlov", "Prob_Reversal", "ProgRat", "RndRatio"] ∧
      1 ≤ sessionType l ∧ sessionType l ≤ 13) ∨
    (l ∉ ["Classic", "ClosedEcon_PR1", "Dispenser", "Ext", "FR1", "FRCustom", "FreeFeed",
        "Menu", "OptoStim", "Pavlov", "Prob_Reversal", "ProgRat", "RndRatio"] ∧
      sessionType l = 0) := by
  by_cases h : l ∈ ["Classic", "ClosedEcon_PR1", "Dispenser", "Ext", "FR1", "FRCustom",
      "FreeFeed", "Menu", "OptoStim", "Pavlov", "Prob_Reversal", "ProgRat", "RndRatio"]
  · left
    refine ⟨h, ?_⟩
    simp only [List.mem_cons, List.mem_singleton, List.not_mem_nil, or_false] at h
    rcases h with h | h | h | h | h | h | h | h | h | h | h | h | h <;> subst h <;> decide
  · right
    refine ⟨h, ?_⟩
    simp only [List.mem_cons, List.mem_singleton, List.not_mem_nil, or_false, not_or] at h
    obtain ⟨h1, h2, h3, h4, h5, h6, h7, h8, h9, h10, h11, h12, h13⟩ := h
    simp only [sessionType, session]
    rw [lookup_cons_ne _ _ _ _ h1, lookup_cons_ne _ _ _ _ h2, lookup_cons_ne _ _ _ _ h3,
      lookup_cons_ne _ _ _ _ h4, lookup_cons_ne _ _ _ _ h5, lookup_cons_ne _ _ _ _ h6,
      lookup_cons_ne _ _ _ _ h7, lookup_cons_ne _ _ _ _ h8, lookup_cons_ne _ _ _ _ h9,
      lookup_cons_ne _ _ _ _ h10, lookup_cons_ne _ _ _ _ h11, lookup_cons_ne _ _ _ _ h12,
      lookup_cons_ne _ _ _ _ h13]
    rfl

theorem event_active_cases (l : String) :
    (l ∈ ["Left", "LeftShort", "LeftWithPellet", "LeftinTimeout", "LeftDuringDispense",
        "Right", "RightShort", "RightWithPellet", "RightinTimeout", "RightDuringDispense",
        "Pellet"] ∧ 1 ≤ event_active l ∧ event_active l ≤ 11) ∨
    (l ∉ ["Left", "LeftShort", "LeftWithPellet", "LeftinTimeout", "LeftDuringDispense",
        "Right", "RightShort", "RightWithPellet", "RightinTimeout", "RightDuringDispense",
        "Pellet"] ∧ event_active l = 0) := by
  by_cases h : l ∈ ["Left", "LeftShort", "LeftWithPellet", "LeftinTimeout",
      "LeftDuringDispense", "Right", "RightShort", "RightWithPellet", "RightinTimeout",
      "RightDuringDispense", "Pellet"]
  · left
    refine ⟨h, ?_⟩
    simp only [List.mem_cons, List.mem_singleton, List.not_mem_nil, or_false] at h
    rcases h with h | h | h | h | h | h | h | h | h | h | h <;> subst h <;> decide
  · right
    refine ⟨h, ?_⟩
    simp only [List.mem_cons, List.mem_singleton, List.not_mem_nil, or_false, not_or] at h
    obtain ⟨h1, h2, h3, h4, h5, h6, h7, h8, h9, h10, h11⟩ := h
    simp only [event_active, event]
    rw [lookup_cons_ne _ _ _ _ h1, lookup_cons_ne _ _ _ _ h2, lookup_cons_ne _ _ _ _ h3,
      lookup_cons_ne _ _ _ _ h4, lookup_cons_ne _ _ _ _ h5, lookup_cons_ne _ _ _ _ h6,
      lookup_cons_ne _ _ _ _ h7, lookup_cons_ne _ _ _ _ h8, lookup_cons_ne _ _ _ _ h9,
      lookup_cons_ne _ _ _ _ h10, lookup_cons_ne _ _ _ _ h11]
    rfl

/-- C4: both category lookups are exact matches against a fixed table. `sessionType`
gives the thirteen codes `Classic = 1` to `RndRatio = 13`, the event lookup of `run` gives
the eleven codes `Left = 1` to `Pellet = 11`; every other label (a different case or a
longer or shorter string included) gives `0`, so the results lie in `0..13` and `0..11`. -/
theorem category_lookups :
    (sessionType "Classic" = 1 ∧ sessionType "ClosedEcon_PR1" = 2 ∧
      sessionType "Dispenser" = 3 ∧ sessionType "Ext" = 4 ∧ sessionType "FR1" = 5 ∧
      sessionType "FRCustom" = 6 ∧ sessionType "FreeFeed" = 7 ∧ sessionType "Menu" = 8 ∧
      sessionType "OptoStim" = 9 ∧ sessionType "Pavlov" = 10 ∧
      sessionType "Prob_Reversal" = 11 ∧ sessionType "ProgRat" = 12 ∧
      sessionType "RndRatio" = 13) ∧
    (∀ l : String,
      l ∉ ["Classic", "ClosedEcon_PR1", "Dispenser", "Ext", "FR1", "FRCustom", "FreeFeed",
        "Menu", "OptoStim", "Pavlov", "Prob_Reversal", "ProgRat", "RndRatio"] →
      sessionType l = 0) ∧
    (∀ l : String, sessionType l ≤ 13) ∧
    (event_active "Left" = 1 ∧ event_active "LeftShort" = 2 ∧
      event_active "LeftWithPellet" = 3 ∧ event_active "LeftinTimeout" = 4 ∧
      event_active "LeftDuringDispense" = 5 ∧ event_active "Right" = 6 ∧
      event_active "RightShort" = 7 ∧ event_active "RightWithPellet" = 8 ∧
      event_active "RightinTimeout" = 9 ∧ event_active "RightDuringDispense" = 10 ∧
      event_active "Pellet" = 11) ∧
    (∀ l : String,
      l ∉ ["Left", "LeftShort", "LeftWithPellet", "LeftinTimeout", "LeftDuringDispense",
        "Right", "RightShort", "RightWithPellet", "RightinTimeout", "RightDuringDispense",
        "Pellet"] →
      event_active l = 0) ∧
    (∀ l : String, event_active l ≤ 11) ∧
    (event_active "Unknown" = 0 ∧ sessionType "classic" = 0 ∧ sessionType "Classic " = 0 ∧
      event_active "pellet" = 0 ∧ event_active "Pel" = 0) := by
  refine ⟨by decide, ?_, ?_, by decide, ?_, ?_, by decide⟩
  · intro l hl
    rcases sessionType_cases l with h | h
    · exact absurd h.1 hl
    · exact h.2
  · intro l
    rcases sessionType_cases l with h | h
    · exact h.2.2
    · rw [h.2]; exact Nat.zero_le _
  · intro l hl
    rcases event_active_cases l with h | h
    · exact absurd h.1 hl
    · exact h.2
  · intro l
    rcases event_active_cases l with h | h
    · exact h.2.2
    · rw [h.2]; exact Nat.zero_le _

/-- Instance of C4: the label `Unknown` is in neither table and gets the code `0` from
both lookups. -/
theorem category_lookups_witness : sessionType "Unknown" = 0 ∧ event_active "Unknown" = 0 :=
  ⟨category_lookups.2.1 "Unknown" (by decide), category_lookups.2.2.2.2.1 "Unknown" (by decide)⟩

/-! ## The checksum -/

theorem crcShift_eq (t : Nat) : crcShift t = if t % 2 = 1 then t / 2 ^^^ 0xA001 else t / 2 := by
  unfold crcShift
  simp only [Nat.and_one_is_mod, Nat.shiftRight_succ, Nat.shiftRight_zero]
  rcases Nat.mod_two_eq_zero_or_one t with h | h <;> simp [h]

theorem crcShift_xor (z c : Nat) :
    crcShift (z ^^^ c) = crc16Feed z (c.testBit 0) ^^^ (c / 2) := by
  rw [crcShift_eq, Nat.xor_div_two, Nat.xor_mod_two_eq]
  unfold crc16Feed
  rw [Nat.testBit_zero]
  rcases Nat.mod_two_eq_zero_or_one z with hz | hz <;>
    rcases Nat.mod_two_eq_zero_or_one c with hc | hc
  · have : (z + c) % 2 = 0 := by omega
    simp [hz, hc, this]
  · have : (z + c) % 2 = 1 := by omega
    simp [hz, hc, this, Nat.xor_assoc, Nat.xor_comm (c / 2)]
  · have : (z + c) % 2 = 1 := by omega
    simp [hz, hc, this, Nat.xor_assoc, Nat.xor_comm (c / 2)]
  · have : (z + c) % 2 = 0 := by omega
    simp [hz, hc, this]

theorem crcShift_iter (n z c : Nat) :
    (List.range n).foldl (fun t _ => crcShift t) (z ^^^ c)
      = ((List.range n).map c.testBit).foldl crc16Feed z ^^^ (c >>> n) := by
  induction n with
  | zero => simp
  | succ k ih =>
    rw [List.range_succ, List.foldl_append, List.map_append, List.foldl_append, ih]
    simp only [List.foldl_cons, List.foldl_nil, List.map_cons, List.map_nil]
    rw [crcShift_xor, Nat.shiftRight_succ, Nat.testBit_shiftRight]
    simp

theorem crcByte_eq (buf : List Nat) (t i : Nat) (hb : buf.getD i 0 < 256) :
    crcByte buf t i = (bitsLSBFirst (buf.getD i 0)).foldl crc16Feed t := by
  unfold crcByte bitsLSBFirst
  rw [crcShift_iter]
  have : buf.getD i 0 >>> 8 = 0 := by
    rw [Nat.shiftRight_eq_div_pow]
    exact Nat.div_eq_of_lt hb
  rw [this, Nat.xor_zero]

theorem crc_fold_take (buf : List Nat) (hb : ∀ b ∈ buf, b < 256) (L init : Nat)
    (hL : L ≤ buf.length) :
    (List.range L).foldl (crcByte buf) init
      = (buf.take L).foldl (fun crc b => (bitsLSBFirst b).foldl crc16Feed crc) init := by
  induction L with
  | zero => simp
  | succ k ih =>
    have hk : k < buf.length := by omega
    have hg : buf.getD k 0 = buf[k] := List.getD_eq_getElem buf 0 hk
    have hlt : buf.getD k 0 < 256 := by
      rw [hg]
      exact hb _ (List.getElem_mem hk)
    rw [List.range_succ, List.foldl_append, ih (by omega), List.take_succ,
      List.foldl_append, List.getElem?_eq_getElem hk]
    simp only [List.foldl_cons, List.foldl_nil, Option.toList]
    rw [crcByte_eq buf _ k hlt, hg]

theorem crc16Feed_lt (crc : Nat) (bit : Bool) (h : crc < 2 ^ 16) : crc16Feed crc bit < 2 ^ 16 := by
  unfold crc16Feed
  have h2 : crc / 2 < 2 ^ 16 := by
    norm_num at h ⊢
    omega
  split
  · exact Nat.xor_lt_two_pow h2 (by norm_num)
  · exact h2

theorem crc16Feed_fold_lt (bits : List Bool) (crc : Nat) (h : crc < 2 ^ 16) :
    bits.foldl crc16Feed crc < 2 ^ 16 := by
  induction bits generalizing crc with
  | nil => simpa using h
  | cons b t ih => exact ih _ (crc16Feed_lt crc b h)

theorem crc16_fold_lt (msg : List Nat) (crc : Nat) (h : crc < 2 ^ 16) :
    msg.foldl (fun crc b => (bitsLSBFirst b).foldl crc16Feed crc) crc < 2 ^ 16 := by
  induction msg generalizing crc with
  | nil => simpa using h
  | cons b t ih => exact ih _ (crc16Feed_fold_lt _ crc h)

theorem crc16Modbus_lt (msg : List Nat) : crc16Modbus msg < 65536 := by
  have := crc16_fold_lt msg 0xFFFF (by norm_num)
  simpa [crc16Modbus] using this

theorem swap_bytes (t : Nat) (h : t < 65536) :
    ((((t <<< 8) % 4294967296) ||| (t >>> 8)) &&& 0xFFFF) % 65536 = swap16 t := by
  have e1 : (0xFFFF : Nat) = 2 ^ 16 - 1 := by norm_num
  have e2 : t <<< 8 = 2 ^ 8 * t := by rw [Nat.shiftLeft_eq]; ring
  have e3 : t >>> 8 = t / 256 := by rw [Nat.shiftRight_eq_div_pow]
  have e4 : (2 ^ 8 * t) % 4294967296 = 2 ^ 8 * t := Nat.mod_eq_of_lt (by omega)
  have h5 : t / 256 < 2 ^ 8 := by omega
  rw [e1, Nat.and_pow_two_sub_one_eq_mod, e2, e4, e3, ← Nat.mul_add_lt_is_or h5]
  unfold swap16
  simp only [Nat.reducePow]
  have e5 : 256 * t + t / 256 = (t % 256 * 256 + t / 256) + 65536 * (t / 256) := by omega
  have e6 : t / 256 % 256 = t / 256 := Nat.mod_eq_of_lt (by omega)
  rw [e5, Nat.add_mul_mod_self_left, Nat.mod_mod, e6]
  exact Nat.mod_eq_of_lt (by omega)

theorem calcCRC_eq (s : FED3WAN) (L : Nat) (hL : L ≤ s.au8Buffer.length)
    (hb : ∀ b ∈ s.au8Buffer, b < 256) :
    s.calcCRC L = swap16 (crc16Modbus (s.au8Buffer.take L)) := by
  unfold calcCRC
  simp only []
  rw [crc_fold_take s.au8Buffer hb L _ hL]
  exact swap_bytes _ (crc16Modbus_lt _)

theorem getD_of_take_eq (l1 l2 : List Nat) (L i : Nat) (h : l1.take L = l2.take L) (hi : i < L) :
    l1.getD i 0 = l2.getD i 0 := by
  have h1 : (l1.take L)[i]? = l1[i]? := List.getElem?_take_of_lt hi
  have h2 : (l2.take L)[i]? = l2[i]? := List.getElem?_take_of_lt hi
  rw [List.getD_eq_getElem?_getD, List.getD_eq_getElem?_getD, ← h1, ← h2, h]

theorem calcCRC_congr (s1 s2 : FED3WAN) (L : Nat)
    (h : s1.au8Buffer.take L = s2.au8Buffer.take L) : s1.calcCRC L = s2.calcCRC L := by
  have e : (List.range L).foldl (crcByte s1.au8Buffer) 0xFFFF
      = (List.range L).foldl (crcByte s2.au8Buffer) 0xFFFF := by
    apply List.foldl_ext
    intro t i hi
    have hi2 : i < L := List.mem_range.mp hi
    unfold crcByte
    rw [getD_of_take_eq _ _ L i h hi2]
  unfold calcCRC
  simp only []
  rw [e]

set_option maxRecDepth 4000 in
theorem crc16Modbus_check :
    crc16Modbus [0x31, 0x32, 0x33, 0x34, 0x35, 0x36, 0x37, 0x38, 0x39] = 0x4B37 := by
  decide

set_option maxRecDepth 4000 in
theorem checkVector_reference :
    swap16 (crc16Modbus (checkVector.au8Buffer.take 9)) = 0x374B := by
  decide

/-- C3: for every content of `au8Buffer` and every `L ≤ 44`, `calcCRC(L)` is the
byte-swapped reference CRC-16/MODBUS (bit-serial register, polynomial `0xA001`, preset
`0xFFFF`, bits least significant first, no final inversion) of the first `L` bytes, and
any state with the same first `L` bytes gives the same value. The reference CRC of
`123456789` is `0x4B37`. -/
theorem calcCRC_swapped_modbus (s : FED3WAN) (L : Nat) (hL : L ≤ 44)
    (hlen : s.au8Buffer.length = 44) (hb : ∀ b ∈ s.au8Buffer, b < 256) :
    s.calcCRC L = swap16 (crc16Modbus (s.au8Buffer.take L)) ∧
    s.calcCRC L < 65536 ∧
    s.calcCRC L / 256 = crc16Modbus (s.au8Buffer.take L) % 256 ∧
    s.calcCRC L % 256 = crc16Modbus (s.au8Buffer.take L) / 256 ∧
    (∀ s2 : FED3WAN, s2.au8Buffer.take L = s.au8Buffer.take L → s2.calcCRC L = s.calcCRC L) ∧
    crc16Modbus [0x31, 0x32, 0x33, 0x34, 0x35, 0x36, 0x37, 0x38, 0x39] = 0x4B37 := by
  have h := calcCRC_eq s L (by omega) hb
  have hlt := crc16Modbus_lt (s.au8Buffer.take L)
  refine ⟨h, ?_, ?_, ?_, fun s2 h2 => calcCRC_congr s2 s L h2, crc16Modbus_check⟩
  · rw [h]; unfold swap16; omega
  · rw [h]; unfold swap16; omega
  · rw [h]; unfold swap16; omega

/-- Instance of C3: with `123456789` at the start of `au8Buffer`, `calcCRC(9)` returns
`0x374B`. -/
theorem calcCRC_swapped_modbus_witness : checkVector.calcCRC 9 = 0x374B :=
  (calcCRC_swapped_modbus checkVector 9 (by decide) (by decide) (by decide)).1.trans checkVector_reference

/-! ## Frame assembly -/

theorem copy_loop (buf a : List Nat) (n : Nat) (hn : n ≤ buf.length) (ha : n + 4 ≤ a.length) :
    (List.range n).foldl (fun a nIndex => a.set (nIndex + HEADER_LENGTH) (buf.getD nIndex 0)) a
      = a.take 4 ++ buf.take n ++ a.drop (4 + n) := by
  induction n with
  | zero => simp
  | succ k ih =>
    have hk : k < buf.length := by omega
    have hk4 : 4 + k < a.length := by omega
    rw [List.range_succ, List.foldl_append, ih (by omega) (by omega)]
    simp only [List.foldl_cons, List.foldl_nil, HEADER_LENGTH]
    have hlen : (a.take 4 ++ buf.take k).length = k + 4 := by
      rw [List.length_append, List.length_take, List.length_take]
      omega
    have hd : a.drop (4 + k) = a[4 + k] :: a.drop (4 + k + 1) := List.drop_eq_getElem_cons hk4
    have ht : buf.take (k + 1) = buf.take k ++ [buf[k]] := by
      rw [List.take_succ, List.getElem?_eq_getElem hk]
      rfl
    have hd2 : a.drop (4 + (k + 1)) = a.drop (4 + k + 1) := by rw [Nat.add_assoc]
    rw [List.set_append_right _ _ (by rw [hlen]), hlen, Nat.sub_self, hd, List.set_cons_zero,
      ht, List.getD_eq_getElem buf 0 hk, hd2]
    simp only [List.append_assoc, List.cons_append, List.nil_append]

theorem header_set (a : List Nat) (n : Nat) (ha : 4 ≤ a.length) :
    (((a.set 0 0x01).set 1 0x00).set 2 0x02).set 3 n = [0x01, 0x00, 0x02, n] ++ a.drop 4 := by
  match a, ha with
  | x0 :: x1 :: x2 :: x3 :: rest, _ => simp

theorem append_crc (x y : List Nat) (m hi lo : Nat) (hm : x.length = m) (hy : 2 ≤ y.length) :
    (((x ++ y).set m hi).set (m + 1) lo).take (m + 2) = x ++ [hi, lo] := by
  match y, hy with
  | y0 :: y1 :: rest, _ =>
    subst hm
    rw [List.set_append_right _ _ (Nat.le_refl _), Nat.sub_self, List.set_cons_zero,
      List.set_append_right _ _ (Nat.le_succ _)]
    have : x.length + 1 - x.length = 1 := by omega
    rw [this]
    simp only [List.set_cons_succ, List.set_cons_zero]
    have e : x ++ hi :: lo :: rest = (x ++ [hi, lo]) ++ rest := by simp
    rw [e]
    exact List.take_left' (by simp)

theorem calcCRC_lt (s : FED3WAN) (L : Nat) : s.calcCRC L < 65536 := by
  unfold calcCRC
  exact Nat.mod_lt _ (by norm_num)

theorem crc_bytes (c : Nat) (h : c < 65536) :
    (c >>> 8) % 256 = c / 256 ∧ (c &&& 0x00ff) % 256 = c % 256 := by
  have e1 : (0x00ff : Nat) = 2 ^ 8 - 1 := by norm_num
  have e2 : c >>> 8 = c / 256 := by rw [Nat.shiftRight_eq_div_pow]
  rw [e1, Nat.and_pow_two_sub_one_eq_mod, e2]
  simp only [Nat.reducePow]
  omega

theorem runSend_written (s : FED3WAN) (millis millis2 : Nat) (hn : s.p ≤ 38)
    (hbuf : s.buf.length = 44) (hau : s.au8Buffer.length = 44) :
    (s.runSend millis millis2).2
      = ([0x01, 0x00, 0x02, s.p] ++ s.buf.take s.p) ++
        [({ s with au8Buffer := [0x01, 0x00, 0x02, s.p] ++ s.buf.take s.p }.calcCRC (s.p + 4)) / 256,
         ({ s with au8Buffer := [0x01, 0x00, 0x02, s.p] ++ s.buf.take s.p }.calcCRC (s.p + 4)) % 256] := by
  have hmod : s.p % 256 = s.p := Nat.mod_eq_of_lt (by omega)
  have hm : (s.p + HEADER_LENGTH) % 256 = s.p + 4 := Nat.mod_eq_of_lt (by simp [HEADER_LENGTH]; omega)
  have hm1 : (s.p + 4 + 1) % 256 = s.p + 4 + 1 := Nat.mod_eq_of_lt (by omega)
  have hm2 : (s.p + 4 + 1 + 1) % 256 = s.p + 4 + 2 := Nat.mod_eq_of_lt (by omega)
  have hA := header_set s.au8Buffer s.p (by omega)
  have hAl : ([0x01, 0x00, 0x02, s.p] ++ s.au8Buffer.drop 4).length = 44 := by
    simp [hau]
  have hR := copy_loop s.buf ([0x01, 0x00, 0x02, s.p] ++ s.au8Buffer.drop 4) s.p (by omega)
    (by rw [hAl]; omega)
  have hX : ([0x01, 0x00, 0x02, s.p] ++ s.buf.take s.p).length = s.p + 4 := by
    rw [List.length_append, List.length_take]
    simp
    omega
  have hY : 2 ≤ (([0x01, 0x00, 0x02, s.p] ++ s.au8Buffer.drop 4).drop (4 + s.p)).length := by
    rw [List.length_drop, hAl]
    omega
  have hR2 : (List.range s.p).foldl
      (fun a nIndex => a.set (nIndex + HEADER_LENGTH) (s.buf.getD nIndex 0))
      ([0x01, 0x00, 0x02, s.p] ++ s.au8Buffer.drop 4)
      = ([0x01, 0x00, 0x02, s.p] ++ s.buf.take s.p)
        ++ ([0x01, 0x00, 0x02, s.p] ++ s.au8Buffer.drop 4).drop (4 + s.p) := by
    rw [hR]
    rfl
  have hcrc : ∀ Y : List Nat,
      ({ s with au8Buffer := ([0x01, 0x00, 0x02, s.p] ++ s.buf.take s.p) ++ Y,
                u8BufferSize := s.p + 4 } : FED3WAN).calcCRC (s.p + 4)
      = ({ s with au8Buffer := [0x01, 0x00, 0x02, s.p] ++ s.buf.take s.p } : FED3WAN).calcCRC
          (s.p + 4) := by
    intro Y
    apply calcCRC_congr
    show (([0x01, 0x00, 0x02, s.p] ++ s.buf.take s.p) ++ Y).take (s.p + 4)
      = ([0x01, 0x00, 0x02, s.p] ++ s.buf.take s.p).take (s.p + 4)
    exact (List.take_left' hX).trans (List.take_of_length_le (le_of_eq hX)).symm
  unfold runSend sendTxBuffer
  simp only [getn, getbase]
  rw [hmod, hA, hR2, hm, hm1, hm2, hcrc]
  have hb := crc_bytes _ (calcCRC_lt
    ({ s with au8Buffer := [0x01, 0x00, 0x02, s.p] ++ s.buf.take s.p } : FED3WAN) (s.p + 4))
  rw [hb.1, hb.2]
  exact append_crc _ _ (s.p + 4) _ _ hX hY

/-- C2: for a staged message of `n ≤ 38` bytes, the frame that `run` hands to the serial
write through `sendTxBuffer` is `01 00 02 n`, then the `n` message bytes unchanged and in
order, then the high and the low byte of `calcCRC(4 + n)`; its byte-count byte is the
message length and its total length is `n + 6`. -/
theorem frame_layout (s : FED3WAN) (millis millis2 : Nat) (hn : s.getn ≤ 38)
    (hbuf : s.buf.length = 44) (hau : s.au8Buffer.length = 44) :
    (s.runSend millis millis2).2
      = [0x01, 0x00, 0x02, s.getn] ++ s.payload ++ [frameCRC s / 256, frameCRC s % 256] ∧
    frameCRC s / 256 < 256 ∧
    s.payload.length = s.getn ∧
    (s.runSend millis millis2).2.getD 3 0 = s.payload.length ∧
    (s.runSend millis millis2).2.length = s.payload.length + 6 ∧
    (∀ (self : FED3WAN) (fed3 : FED3) (VER : List Nat) (unixtime : Nat),
      (self.run fed3 VER unixtime millis millis2).2
        = ((self.runEncode fed3 VER unixtime).runSend millis millis2).2) := by
  have hw := runSend_written s millis millis2 hn hbuf hau
  have hc : ({ s with au8Buffer := [0x01, 0x00, 0x02, s.p] ++ s.buf.take s.p } : FED3WAN).calcCRC
      (s.p + 4) = frameCRC s := by
    unfold frameCRC payload getn getbase
    rw [Nat.add_comm]
  rw [hc] at hw
  have hl : s.payload.length = s.getn := by
    unfold payload getn getbase
    rw [List.length_take]
    unfold getn at hn
    omega
  have hlt := calcCRC_lt
    ({ s with au8Buffer := [0x01, 0x00, 0x02, s.getn] ++ s.payload } : FED3WAN) (4 + s.getn)
  have hf : (s.runSend millis millis2).2
      = [0x01, 0x00, 0x02, s.getn] ++ s.payload ++ [frameCRC s / 256, frameCRC s % 256] := hw
  refine ⟨hf, ?_, hl, ?_, ?_, fun _ _ _ _ => rfl⟩
  · unfold frameCRC
    omega
  · rw [hf, hl]
    rfl
  · rw [hf]
    simp only [List.length_append, List.length_cons, List.length_nil, hl]
    omega

set_option maxRecDepth 4000 in
theorem twoStaged_frame :
    [0x01, 0x00, 0x02, twoStaged.getn] ++ twoStaged.payload ++
        [frameCRC twoStaged / 256, frameCRC twoStaged % 256]
      = [0x01, 0x00, 0x02, 0x02, 0xAA, 0xBB, 0x9F, 0x61] := by
  decide

/-- Instance of C2: with `AA BB` staged the frame written is `01 00 02 02 AA BB` followed
by the two checksum bytes. -/
theorem frame_layout_witness :
    (twoStaged.runSend 0 0).2 = [0x01, 0x00, 0x02, 0x02, 0xAA, 0xBB, 0x9F, 0x61] :=
  (frame_layout twoStaged 0 0 (by decide) (by decide) (by decide)).1.trans twoStaged_frame

/-! ## The encoding pass of `run` -/

theorem versionLoop_buf (s : FED3WAN) (j : Nat) (l : List Nat) :
    (s.versionLoop j l).buf = s.buf ∧ (s.versionLoop j l).p = s.p := by
  induction l generalizing s j with
  | nil => exact ⟨rfl, rfl⟩
  | cons c t ih =>
    unfold versionLoop
    split
    · exact ⟨rfl, rfl⟩
    · split
      · have h := ih (s.getVersion c j) j
        exact ⟨h.1, h.2⟩
      · exact ih s ((j + 1) % 256)

theorem put_sw_version (s : FED3WAN) (c : Nat) : (s.put c).sw_version = s.sw_version := by
  unfold put
  split <;> rfl

theorem put4u_sw_version (s : FED3WAN) (v : Nat) : (s.put4u v).sw_version = s.sw_version := by
  simp [put4u, put_sw_version]

theorem staged_putVersionByte (s : FED3WAN) (i : Nat) (h : s.p + 1 ≤ BUF_SIZE)
    (hl : s.buf.length = BUF_SIZE) :
    Staged s (s.putVersionByte i) [s.sw_version.getD i 0] ∧
      (s.putVersionByte i).sw_version = s.sw_version.set i 0 := by
  have h1 := staged_put s (s.sw_version.getD i 0) h hl
  refine ⟨⟨h1.1, h1.2.1, h1.2.2⟩, ?_⟩
  show (s.put (s.sw_version.getD i 0)).sw_version.set i 0 = s.sw_version.set i 0
  rw [put_sw_version]

theorem sfCode_range (v : ℚ) : -32768 ≤ sfCode v ∧ sfCode v ≤ 32767 := by
  unfold sfCode
  split
  · omega
  · next h1 =>
    split
    · omega
    · next h2 =>
      have hlo : ((-32768 : Int) : ℚ) ≤ v + 0.5 := by
        have : ((-32768 : Int) : ℚ) = -32767.5 - 0.5 := by norm_num
        rw [this]
        linarith [not_lt.mp h2]
      have hhi : v + 0.5 ≤ ((32767 : Int) : ℚ) := by
        have : ((32767 : Int) : ℚ) = 32766.5 + 0.5 := by norm_num
        rw [this]
        linarith [not_lt.mp h1]
      exact truncFloat_bounds (v + 0.5) (-32768) 32767 hlo hhi (by omega) (by omega)

theorem staged_put2sf (s : FED3WAN) (v : ℚ) (h : s.p + 2 ≤ BUF_SIZE)
    (hl : s.buf.length = BUF_SIZE) : Staged s (s.put2sf v) (s16be (sfCode v)) := by
  have h1 := staged_put2_int32 s (sfCode v) h hl
  have hr := sfCode_range v
  have e : clampS16 (sfCode v) = sfCode v := by
    unfold clampS16
    omega
  rw [e] at h1
  exact h1

theorem staged_putV (s : FED3WAN) (V : ℚ) (h : s.p + 2 ≤ BUF_SIZE)
    (hl : s.buf.length = BUF_SIZE) :
    Staged s (s.putV V) (s16be (sfCode (V * 4096 + 0.5))) := by
  have h1 := staged_put2sf s (V * 4096.0 + 0.5) h hl
  have e : (4096.0 : ℚ) = 4096 := by norm_num
  rw [e] at h1
  have e2 : s.putV V = s.put2sf (V * 4096 + 0.5) := by
    unfold putV
    rw [e]
  rw [e2]
  exact h1

theorem staged_versionLoop (s : FED3WAN) (j : Nat) (l : List Nat) :
    Staged s (s.versionLoop j l) [] := by
  have h := versionLoop_buf s j l
  refine ⟨h.2, by rw [h.1], ?_⟩
  simp [payload, getn, getbase, h.1, h.2]

theorem Staged.room {s0 s : FED3WAN} {bs : List Nat} (h : Staged s0 s bs) (n : Nat)
    (hp : s0.p + bs.length + n ≤ BUF_SIZE) (hl : s0.buf.length = BUF_SIZE) :
    s.p + n ≤ BUF_SIZE ∧ s.buf.length = BUF_SIZE := by
  refine ⟨?_, ?_⟩
  · rw [h.1]; exact hp
  · rw [h.2.1]; exact hl

theorem eventTime_lt (fed3 : FED3) (ev : Nat) : eventTime fed3 ev < 65536 := by
  unfold eventTime toU16
  split
  · omega
  · split
    · omega
    · split <;> omega

theorem clampU16_natCast (n : Nat) (h : n < 65536) : clampU16 (n : Int) = n := by
  unfold clampU16
  omega

theorem toU16_lt (x : Int) : toU16 x < 65536 := by
  unfold toU16
  omega

theorem runSend_staging (s : FED3WAN) (millis millis2 : Nat) :
    (s.runSend millis millis2).1.payload = s.payload ∧ (s.runSend millis millis2).1.getn = s.p :=
  ⟨rfl, rfl⟩

/-- C6, evaluated where the rounding of `put2sf` leaves the nearest integer: for
`v = -1.25` the conversion `(int32_t)(v + 0.5f)` discards the fraction of `-0.75` and
`00 00` is staged, while `⌊v + 0.5⌋ = -1`, the integer nearest to `v`, is encoded as
`FF FF`. -/
theorem put2sf_negative_truncates :
    (fresh.put2sf (-1.25)).payload = [0x00, 0x00] ∧
    ⌊(-1.25 : ℚ) + 0.5⌋ = -1 ∧
    s16be ⌊(-1.25 : ℚ) + 0.5⌋ = [0xFF, 0xFF] ∧
    (-32767.5 : ℚ) ≤ -1.25 ∧ (-1.25 : ℚ) ≤ 32766.5 := by
  have hf : ⌊(-1.25 : ℚ) + 0.5⌋ = -1 := by
    rw [Int.floor_eq_iff]
    norm_num
  have hc : sfCode (-1.25) = 0 := by
    unfold sfCode
    rw [if_neg (by norm_num), if_neg (by norm_num), truncFloat_neg _ (by norm_num),
      Int.ceil_eq_iff]
    norm_num
  have h := (staged_put2sf fresh (-1.25) (by decide) (by decide)).2.2
  rw [hc] at h
  refine ⟨h, hf, ?_, by norm_num, by norm_num⟩
  rw [hf]
  decide

/-! ## Buffer exhaustion -/

theorem put_full (s : FED3WAN) (c : Nat) (h : BUF_SIZE ≤ s.p) : s.put c = s := by
  unfold put
  rw [if_neg (by omega)]

theorem putAll_spec (s : FED3WAN) (bs : List Nat) (hl : s.buf.length = BUF_SIZE) :
    (s.putAll bs).payload = s.payload ++ bs.take (BUF_SIZE - s.p) ∧
    (s.putAll bs).p = s.p + min bs.length (BUF_SIZE - s.p) ∧
    (s.putAll bs).buf.length = BUF_SIZE := by
  induction bs generalizing s with
  | nil => simp [putAll, hl]
  | cons c t ih =>
    have e : s.putAll (c :: t) = (s.put c).putAll t := rfl
    rw [e]
    by_cases hp : s.p < BUF_SIZE
    · have h1 := ih (s.put c) (by rw [put_length, hl])
      rw [put_p s c hp, put_payload s c hp hl] at h1
      have e2 : BUF_SIZE - s.p = (BUF_SIZE - (s.p + 1)) + 1 := by omega
      refine ⟨?_, ?_, h1.2.2⟩
      · rw [h1.1, e2, List.take_succ_cons, List.append_assoc]
        rfl
      · rw [h1.2.1, List.length_cons]
        omega
    · have hp2 : BUF_SIZE ≤ s.p := by omega
      rw [put_full s c hp2]
      have h1 := ih s hl
      have e3 : BUF_SIZE - s.p = 0 := by omega
      rw [e3] at h1 ⊢
      simpa using h1

theorem put_getD (s : FED3WAN) (c : Nat) (hp : s.p < BUF_SIZE) (hl : s.buf.length = BUF_SIZE) :
    (s.put c).buf.getD s.p 0 = c ∧
      ∀ i, i ≠ s.p → (s.put c).buf.getD i 0 = s.buf.getD i 0 := by
  rw [put_of_lt s c hp]
  refine ⟨?_, ?_⟩
  · show (s.buf.set s.p c).getD s.p 0 = c
    rw [List.getD_eq_getElem _ 0 (by rw [List.length_set]; omega)]
    simp
  · intro i hi
    show (s.buf.set s.p c).getD i 0 = s.buf.getD i 0
    rw [List.getD_eq_getElem?_getD, List.getD_eq_getElem?_getD,
      List.getElem?_set_ne (Ne.symm hi)]

theorem put4u_putAll (s : FED3WAN) (v : Nat) : s.put4u v = s.putAll (be32 v) := by
  simp [put4u, putAll, be32, Nat.shiftRight_eq_div_pow]

theorem put2_uint32_putAll (s : FED3WAN) (v : Nat) :
    s.put2_uint32 v = s.putAll (be16 (min v 65535)) := by
  have e : (if v > 0xFFFF then 0xFFFF else v) = min v 65535 := by
    split <;> omega
  simp only [put2_uint32, e]
  simp [putAll, be16, Nat.shiftRight_eq_div_pow]

theorem put2_int32_putAll (s : FED3WAN) (v : Int) :
    s.put2_int32 v = s.putAll (s16be (clampS16 v)) := by
  have e : (if v < -0x8000 then -0x8000 else if v > 0x7FFF then 0x7FFF else v) = clampS16 v := by
    unfold clampS16
    split
    · omega
    · split <;> omega
  simp only [put2_int32, e]
  rfl

theorem put2u_putAll (s : FED3WAN) (v : Int) : s.put2u v = s.putAll (be16 (clampU16 v)) := by
  have e : min (toU32 (if v < 0 then 0 else if v > 0xFFFF then 0xFFFF else v)) 65535
      = clampU16 v := by
    unfold toU32 clampU16
    split
    · omega
    · split <;> omega
  simp only [put2u]
  rw [put2_uint32_putAll, e]

theorem put2sf_putAll (s : FED3WAN) (v : ℚ) : s.put2sf v = s.putAll (s16be (sfCode v)) := by
  have hr := sfCode_range v
  have e : clampS16 (sfCode v) = sfCode v := by
    unfold clampS16
    omega
  have e2 : s.put2sf v = s.put2_int32 (sfCode v) := rfl
  rw [e2, put2_int32_putAll, e]

theorem putV_putAll (s : FED3WAN) (V : ℚ) :
    s.putV V = s.putAll (s16be (sfCode (V * 4096 + 0.5))) := by
  have e : (4096.0 : ℚ) = 4096 := by norm_num
  have e2 : s.putV V = s.put2sf (V * 4096 + 0.5) := by
    unfold putV
    rw [e]
  rw [e2, put2sf_putAll]

/-- C11: `put` never fails. When the staging buffer is not full it stores `c` at the
cursor, advances the cursor by one and leaves every other byte as it was; when the buffer
is full it changes nothing. Hence a multi-byte put stages only the leading bytes that
fit and drops the rest. -/
theorem put_never_fails (s : FED3WAN) (c : Nat) (hlen : s.buf.length = BUF_SIZE) :
    (s.p < BUF_SIZE →
      (s.put c).p = s.p + 1 ∧ (s.put c).buf.getD s.p 0 = c ∧
      (∀ i, i ≠ s.p → (s.put c).buf.getD i 0 = s.buf.getD i 0) ∧
      (s.put c).payload = s.payload ++ [c]) ∧
    (BUF_SIZE ≤ s.p → s.put c = s) ∧
    (∀ v : Nat, (s.put4u v).payload = s.payload ++ (be32 v).take (BUF_SIZE - s.p) ∧
      (s.put4u v).p = s.p + min 4 (BUF_SIZE - s.p)) ∧
    (∀ v : Nat,
      (s.put2_uint32 v).payload = s.payload ++ (be16 (min v 0xFFFF)).take (BUF_SIZE - s.p) ∧
      (s.put2_uint32 v).p = s.p + min 2 (BUF_SIZE - s.p)) ∧
    (∀ v : Int,
      (s.put2_int32 v).payload = s.payload ++ (s16be (clampS16 v)).take (BUF_SIZE - s.p) ∧
      (s.put2_int32 v).p = s.p + min 2 (BUF_SIZE - s.p)) ∧
    (∀ v : Int, (s.put2u v).payload = s.payload ++ (be16 (clampU16 v)).take (BUF_SIZE - s.p) ∧
      (s.put2u v).p = s.p + min 2 (BUF_SIZE - s.p)) ∧
    (∀ v : ℚ, (s.put2sf v).payload = s.payload ++ (s16be (sfCode v)).take (BUF_SIZE - s.p) ∧
      (s.put2sf v).p = s.p + min 2 (BUF_SIZE - s.p)) ∧
    (∀ v : ℚ, ∃ b0 b1 : Nat,
      (s.put2uf v).payload = s.payload ++ [b0, b1].take (BUF_SIZE - s.p) ∧
      (s.put2uf v).p = s.p + min 2 (BUF_SIZE - s.p)) ∧
    (∀ V : ℚ,
      (s.putV V).payload = s.payload ++ (s16be (sfCode (V * 4096 + 0.5))).take (BUF_SIZE - s.p) ∧
      (s.putV V).p = s.p + min 2 (BUF_SIZE - s.p)) := by
  refine ⟨?_, put_full s c, ?_, ?_, ?_, ?_, ?_, ?_, ?_⟩
  · intro hp
    have h := put_getD s c hp hlen
    exact ⟨put_p s c hp, h.1, h.2, put_payload s c hp hlen⟩
  · intro v
    rw [put4u_putAll]
    have h := putAll_spec s (be32 v) hlen
    exact ⟨h.1, h.2.1⟩
  · intro v
    rw [put2_uint32_putAll]
    have h := putAll_spec s (be16 (min v 65535)) hlen
    exact ⟨h.1, h.2.1⟩
  · intro v
    rw [put2_int32_putAll]
    have h := putAll_spec s (s16be (clampS16 v)) hlen
    exact ⟨h.1, h.2.1⟩
  · intro v
    rw [put2u_putAll]
    have h := putAll_spec s (be16 (clampU16 v)) hlen
    exact ⟨h.1, h.2.1⟩
  · intro v
    rw [put2sf_putAll]
    have h := putAll_spec s (s16be (sfCode v)) hlen
    exact ⟨h.1, h.2.1⟩
  · intro v
    have e : s.put2uf v = s.put2_uint32
        (if v > 65535.5 then 0xffff else if v < 0.5 then 0 else toU32 (truncFloat (v + 0.5))) :=
      rfl
    have h := putAll_spec s (be16 (min
      (if v > 65535.5 then 0xffff else if v < 0.5 then 0 else toU32 (truncFloat (v + 0.5)))
      65535)) hlen
    rw [← put2_uint32_putAll, ← e] at h
    exact ⟨_, _, h.1, h.2.1⟩
  · intro V
    rw [putV_putAll]
    have h := putAll_spec s (s16be (sfCode (V * 4096 + 0.5))) hlen
    exact ⟨h.1, h.2.1⟩

/-- Instance of C11: with one free byte `put4u(0x01020304)` stages `01` only and fills
the buffer, and on a full buffer `put` changes nothing. -/
theorem put_never_fails_witness :
    (oneFree.put4u 0x01020304).payload = oneFree.payload ++ [0x01] ∧
    (oneFree.put4u 0x01020304).p = 44 ∧
    full.put 0xAB = full :=
  ⟨((put_never_fails oneFree 0 (by decide)).2.2.1 0x01020304).1,
   ((put_never_fails oneFree 0 (by decide)).2.2.1 0x01020304).2,
   (put_never_fails full 0xAB (by decide)).2.1 (by decide)⟩

theorem putAll_p_le (s : FED3WAN) (bs : List Nat) (h : s.p ≤ BUF_SIZE) :
    (s.putAll bs).p ≤ BUF_SIZE := by
  induction bs generalizing s with
  | nil => exact h
  | cons c t ih =>
    have e : s.putAll (c :: t) = (s.put c).putAll t := rfl
    rw [e]
    apply ih
    by_cases hp : s.p < BUF_SIZE
    · rw [put_p s c hp]
      omega
    · rw [put_full s c (by omega)]
      exact h

theorem PutCall.run_p_le (s : FED3WAN) (call : PutCall) (h : s.p ≤ BUF_SIZE) :
    (call.run s).p ≤ BUF_SIZE := by
  cases call with
  | byte c => exact putAll_p_le s [c] h
  | u32 v =>
    show (s.put2_uint32 v).p ≤ BUF_SIZE
    rw [put2_uint32_putAll]
    exact putAll_p_le s _ h
  | i32 v =>
    show (s.put2_int32 v).p ≤ BUF_SIZE
    rw [put2_int32_putAll]
    exact putAll_p_le s _ h
  | sf v =>
    show (s.put2sf v).p ≤ BUF_SIZE
    rw [put2sf_putAll]
    exact putAll_p_le s _ h
  | uf v =>
    have e : s.put2uf v = s.put2_uint32
        (if v > 65535.5 then 0xffff else if v < 0.5 then 0 else toU32 (truncFloat (v + 0.5))) :=
      rfl
    show (s.put2uf v).p ≤ BUF_SIZE
    rw [e, put2_uint32_putAll]
    exact putAll_p_le s _ h
  | u v =>
    show (s.put2u v).p ≤ BUF_SIZE
    rw [put2u_putAll]
    exact putAll_p_le s _ h
  | four v =>
    show (s.put4u v).p ≤ BUF_SIZE
    rw [put4u_putAll]
    exact putAll_p_le s _ h
  | volt V =>
    show (s.putV V).p ≤ BUF_SIZE
    rw [putV_putAll]
    exact putAll_p_le s _ h

theorem putCalls_p_le (s : FED3WAN) (calls : List PutCall) (h : s.p ≤ BUF_SIZE) :
    (s.putCalls calls).p ≤ BUF_SIZE := by
  induction calls generalizing s with
  | nil => exact h
  | cons call t ih => exact ih (call.run s) (PutCall.run_p_le s call h)

set_option maxRecDepth 8000 in
theorem thirtyNine_puts : (fresh.putCalls (List.replicate 39 (PutCall.byte 0))).getn = 39 := by
  decide

set_option maxRecDepth 8000 in
theorem eleven_put4u : (fresh.putCalls (List.replicate 11 (PutCall.four 0))).getn = 44 := by
  decide

/-- C12 as stated fails: thirty-nine calls of `put` on an empty staging buffer leave
`getn() = 39`, above the bound of 38. -/
theorem getn_exceeds_38 :
    ¬ ∀ calls : List PutCall, (fresh.putCalls calls).getn ≤ 38 := by
  intro h
  have h39 := h (List.replicate 39 (PutCall.byte 0))
  rw [thirtyNine_puts] at h39
  omega

/-- C12 amended: starting from an empty staging buffer, after any sequence of calls of
`put`, `put2`, `put2sf`, `put2uf`, `put2u`, `put4u` and `putV`, `getn()` never exceeds
44, the size of `buf`; eleven calls of `put4u` reach 44. -/
theorem getn_le_44 :
    (∀ (s : FED3WAN) (calls : List PutCall),
      (({ s with p := 0 } : FED3WAN).putCalls calls).getn ≤ 44) ∧
    (fresh.putCalls (List.replicate 11 (PutCall.four 0))).getn = 44 := by
  refine ⟨?_, eleven_put4u⟩
  intro s calls
  exact putCalls_p_le _ calls (Nat.zero_le _)

/-! ## The encoding pass for an arbitrary version array -/

theorem versionLoop_sw_congr (s1 s2 : FED3WAN) (j : Nat) (l : List Nat)
    (h : s1.sw_version = s2.sw_version) :
    (s1.versionLoop j l).sw_version = (s2.versionLoop j l).sw_version := by
  induction l generalizing s1 s2 j with
  | nil => exact h
  | cons c t ih =>
    unfold versionLoop
    split
    · exact h
    · split
      · apply ih
        simp [getVersion, h]
      · exact ih s1 s2 _ h

theorem staged_putVersion_any (s : FED3WAN) (h : s.p + 3 ≤ BUF_SIZE)
    (hl : s.buf.length = BUF_SIZE) :
    Staged s s.putVersion
      [s.sw_version.getD 0 0, s.sw_version.getD 1 0, s.sw_version.getD 2 0] ∧
    s.putVersion.sw_version = ((s.sw_version.set 0 0).set 1 0).set 2 0 := by
  have h1 := staged_putVersionByte s 0 (by omega) hl
  have h2 := staged_putVersionByte (s.putVersionByte 0) 1 (by rw [h1.1.1]; simp; omega)
    (by rw [h1.1.2.1, hl])
  have h12 := h1.1.trans h2.1
  have h3 := staged_putVersionByte ((s.putVersionByte 0).putVersionByte 1) 2
    (by rw [h12.1]; simp; omega) (by rw [h12.2.1, hl])
  have h123 := h12.trans h3.1
  have e : s.putVersion = ((s.putVersionByte 0).putVersionByte 1).putVersionByte 2 := rfl
  rw [e]
  refine ⟨?_, ?_⟩
  · rw [h2.2, h1.2] at h123
    have g1 : (s.sw_version.set 0 0).getD 1 0 = s.sw_version.getD 1 0 := by
      rw [List.getD_eq_getElem?_getD, List.getD_eq_getElem?_getD,
        List.getElem?_set_ne (by decide)]
    have g2 : ((s.sw_version.set 0 0).set 1 0).getD 2 0 = s.sw_version.getD 2 0 := by
      rw [List.getD_eq_getElem?_getD, List.getD_eq_getElem?_getD,
        List.getElem?_set_ne (by decide), List.getElem?_set_ne (by decide)]
    rw [g1, g2] at h123
    exact h123
  · rw [h3.2, h2.2, h1.2]

theorem runEncode_staged_any (self : FED3WAN) (fed3 : FED3) (VER : List Nat) (unixtime : Nat)
    (hbuf : self.buf.length = BUF_SIZE) :
    Staged { self with p := 0 } (self.runEncode fed3 VER unixtime)
      (be32 (unixtime % 4294967296) ++ [] ++ versionBytes self VER ++
        be16 (toU16 fed3.FED) ++
        [sessionType fed3.sessiontype] ++
        s16be (sfCode (fed3.measuredvbat * 4096 + 0.5)) ++
        be32 (toU32 (fed3.numMotorTurns + 1)) ++
        be16 (clampU16 fed3.FR) ++
        [event_active fed3.Event] ++
        be16 (eventTime fed3 (event_active fed3.Event)) ++
        be32 (toU32 fed3.LeftCount) ++
        be32 (toU32 fed3.RightCount) ++
        be32 (toU32 fed3.PelletCount) ++
        be16 (clampU16 fed3.BlockPelletCount)) := by
  have hl0 : ({ self with p := 0 } : FED3WAN).buf.length = BUF_SIZE := hbuf
  have k1 := staged_put4u ({ self with p := 0 } : FED3WAN) (unixtime % 4294967296)
    (by simp [BUF_SIZE]) hl0
  have sw1 : (({ self with p := 0 } : FED3WAN).put4u (unixtime % 4294967296)).sw_version
      = self.sw_version := by
    rw [put4u_sw_version]
  have k2 := k1.trans (staged_versionLoop _ 0 (VER.take (VER.length % 256)))
  have sw2 := versionLoop_sw_congr _ self 0 (VER.take (VER.length % 256)) sw1
  have r2 := k2.room 3 (by simp [BUF_SIZE, be32]) hl0
  have k3 := k2.trans (staged_putVersion_any _ r2.1 r2.2).1
  rw [sw2] at k3
  have r3 := k3.room 2 (by simp [BUF_SIZE, be32]) hl0
  have k4 := k3.trans (staged_put2u _ (toU16 fed3.FED) r3.1 r3.2)
  rw [clampU16_natCast _ (toU16_lt _)] at k4
  have r4 := k4.room 1 (by simp [BUF_SIZE, be32, be16]) hl0
  have k5 := k4.trans (staged_put _ (sessionType fed3.sessiontype) r4.1 r4.2)
  have r5 := k5.room 2 (by simp [BUF_SIZE, be32, be16]) hl0
  have k6 := k5.trans (staged_putV _ fed3.measuredvbat r5.1 r5.2)
  have r6 := k6.room 4 (by simp [BUF_SIZE, be32, be16, s16be]) hl0
  have k7 := k6.trans (staged_put4u _ (toU32 (fed3.numMotorTurns + 1)) r6.1 r6.2)
  have r7 := k7.room 2 (by simp [BUF_SIZE, be32, be16, s16be]) hl0
  have k8 := k7.trans (staged_put2u _ fed3.FR r7.1 r7.2)
  have r8 := k8.room 1 (by simp [BUF_SIZE, be32, be16, s16be]) hl0
  have k9 := k8.trans (staged_put _ (event_active fed3.Event) r8.1 r8.2)
  have r9 := k9.room 2 (by simp [BUF_SIZE, be32, be16, s16be]) hl0
  have k10 := k9.trans (staged_put2u _ (eventTime fed3 (event_active fed3.Event)) r9.1 r9.2)
  rw [clampU16_natCast _ (eventTime_lt _ _)] at k10
  have r10 := k10.room 4 (by simp [BUF_SIZE, be32, be16, s16be]) hl0
  have k11 := k10.trans (staged_put4u _ (toU32 fed3.LeftCount) r10.1 r10.2)
  have r11 := k11.room 4 (by simp [BUF_SIZE, be32, be16, s16be]) hl0
  have k12 := k11.trans (staged_put4u _ (toU32 fed3.RightCount) r11.1 r11.2)
  have r12 := k12.room 4 (by simp [BUF_SIZE, be32, be16, s16be]) hl0
  have k13 := k12.trans (staged_put4u _ (toU32 fed3.PelletCount) r12.1 r12.2)
  have r13 := k13.room 2 (by simp [BUF_SIZE, be32, be16, s16be]) hl0
  have k14 := k13.trans (staged_put2u _ fed3.BlockPelletCount r13.1 r13.2)
  exact k14

theorem runEncode_payload_any (self : FED3WAN) (fed3 : FED3) (VER : List Nat) (unixtime : Nat)
    (hbuf : self.buf.length = BUF_SIZE) :
    (self.runEncode fed3 VER unixtime).payload
      = be32 (unixtime % 4294967296) ++ versionBytes self VER ++ deviceFields fed3 ∧
    (self.runEncode fed3 VER unixtime).p = 35 ∧
    (self.runEncode fed3 VER unixtime).buf.length = BUF_SIZE := by
  have h := runEncode_staged_any self fed3 VER unixtime hbuf
  refine ⟨?_, ?_, ?_⟩
  · rw [h.2.2]
    simp [payload, getn, getbase, deviceFields]
  · rw [h.1]
    simp [be32, be16, s16be, versionBytes]
  · rw [h.2.1]
    exact hbuf

theorem run_payload_any (self : FED3WAN) (fed3 : FED3) (VER : List Nat)
    (unixtime millis millis2 : Nat) (hbuf : self.buf.length = BUF_SIZE) :
    (self.run fed3 VER unixtime millis millis2).1.payload
      = be32 (unixtime % 4294967296) ++ versionBytes self VER ++ deviceFields fed3 := by
  have hs := runSend_staging (self.runEncode fed3 VER unixtime) millis millis2
  have hp : (self.run fed3 VER unixtime millis millis2).1.payload
      = (self.runEncode fed3 VER unixtime).payload := hs.1
  rw [hp]
  exact (runEncode_payload_any self fed3 VER unixtime hbuf).1

theorem payload_event_fields (t : Nat) (vb : List Nat) (fed3 : FED3) (hv : vb.length = 3) :
    (be32 t ++ vb ++ deviceFields fed3).getD 18 0 = event_active fed3.Event ∧
    ((be32 t ++ vb ++ deviceFields fed3).drop 19).take 2
      = be16 (eventTime fed3 (event_active fed3.Event)) := by
  match vb, hv with
  | [v0, v1, v2], _ => simp [be32, be16, s16be, deviceFields]

theorem toU16_of_range (x : Int) (h0 : 0 ≤ x) (h1 : x ≤ 0xFFFF) :
    toU16 x = x.toNat ∧ x.toNat ≤ 65535 := by
  unfold toU16
  omega

/-- C13: event-time selection. The byte at message offset 18 is the event code. When the
selected interval divided by 4 (C integer division) lies in `[0, 0xFFFF]`, the two bytes
at offsets 19 and 20 are the big-endian encoding of `leftInterval / 4` for the codes
1..5, of `rightInterval / 4` for 6..10, of `retInterval / 4` for 11; for the code 0 they
are `00 00`. -/
theorem event_time_selection (self : FED3WAN) (fed3 : FED3) (VER : List Nat)
    (unixtime millis millis2 : Nat) (hbuf : self.buf.length = BUF_SIZE) :
    (self.run fed3 VER unixtime millis millis2).1.payload.getD 18 0 = event_active fed3.Event ∧
    (1 ≤ event_active fed3.Event → event_active fed3.Event ≤ 5 →
      0 ≤ Int.tdiv fed3.leftInterval 4 → Int.tdiv fed3.leftInterval 4 ≤ 0xFFFF →
      ((self.run fed3 VER unixtime millis millis2).1.payload.drop 19).take 2
        = [(Int.tdiv fed3.leftInterval 4).toNat / 256,
           (Int.tdiv fed3.leftInterval 4).toNat % 256]) ∧
    (6 ≤ event_active fed3.Event → event_active fed3.Event ≤ 10 →
      0 ≤ Int.tdiv fed3.rightInterval 4 → Int.tdiv fed3.rightInterval 4 ≤ 0xFFFF →
      ((self.run fed3 VER unixtime millis millis2).1.payload.drop 19).take 2
        = [(Int.tdiv fed3.rightInterval 4).toNat / 256,
           (Int.tdiv fed3.rightInterval 4).toNat % 256]) ∧
    (event_active fed3.Event = 11 →
      0 ≤ Int.tdiv fed3.retInterval 4 → Int.tdiv fed3.retInterval 4 ≤ 0xFFFF →
      ((self.run fed3 VER unixtime millis millis2).1.payload.drop 19).take 2
        = [(Int.tdiv fed3.retInterval 4).toNat / 256,
           (Int.tdiv fed3.retInterval 4).toNat % 256]) ∧
    (event_active fed3.Event = 0 →
      ((self.run fed3 VER unixtime millis millis2).1.payload.drop 19).take 2 = [0x00, 0x00]) := by
  have hp := run_payload_any self fed3 VER unixtime millis millis2 hbuf
  have hf := payload_event_fields (unixtime % 4294967296) (versionBytes self VER) fed3 rfl
  rw [hp]
  refine ⟨hf.1, ?_, ?_, ?_, ?_⟩
  · intro h1 h5 h0 hmax
    have hr := toU16_of_range _ h0 hmax
    have e : eventTime fed3 (event_active fed3.Event) = (Int.tdiv fed3.leftInterval 4).toNat := by
      unfold eventTime
      rw [if_pos ⟨by omega, by omega⟩, hr.1]
    rw [hf.2, e, be16_of_le _ hr.2]
  · intro h6 h10 h0 hmax
    have hr := toU16_of_range _ h0 hmax
    have e : eventTime fed3 (event_active fed3.Event) = (Int.tdiv fed3.rightInterval 4).toNat := by
      unfold eventTime
      rw [if_neg (by omega), if_pos ⟨by omega, by omega⟩, hr.1]
    rw [hf.2, e, be16_of_le _ hr.2]
  · intro h11 h0 hmax
    have hr := toU16_of_range _ h0 hmax
    have e : eventTime fed3 (event_active fed3.Event) = (Int.tdiv fed3.retInterval 4).toNat := by
      unfold eventTime
      rw [if_neg (by omega), if_neg (by omega), if_pos h11, hr.1]
    rw [hf.2, e, be16_of_le _ hr.2]
  · intro h0
    have e : eventTime fed3 (event_active fed3.Event) = 0 := by
      unfold eventTime
      rw [if_neg (by omega), if_neg (by omega), if_neg (by omega)]
    rw [hf.2, e]
    rfl

/-- Instance of C13, the end-to-end scenario: the event is `Pellet` (code 11) and the
retrieval interval is 8, so the event-time field is `00 02`. -/
theorem event_time_selection_witness :
    ((fresh.run sampleDevice [49, 46, 50, 46, 51, 0] 1700000000 0 0).1.payload.drop 19).take 2
      = [0x00, 0x02] :=
  (event_time_selection fresh sampleDevice [49, 46, 50, 46, 51, 0] 1700000000 0 0
    (by decide)).2.2.2.1 (by decide) (by decide) (by decide)

theorem payload_u16_fields (t : Nat) (vb : List Nat) (fed3 : FED3) (hv : vb.length = 3) :
    ((be32 t ++ vb ++ deviceFields fed3).drop 7).take 2 = be16 (toU16 fed3.FED) ∧
    ((be32 t ++ vb ++ deviceFields fed3).drop 16).take 2 = be16 (clampU16 fed3.FR) ∧
    ((be32 t ++ vb ++ deviceFields fed3).drop 33).take 2
      = be16 (clampU16 fed3.BlockPelletCount) := by
  match vb, hv with
  | [v0, v1, v2], _ => simp [be32, be16, s16be, deviceFields]

/-- C14, evaluated where the code wraps instead of clamping. For `FED = 65543` the
device-id field holds `00 07` and for `FED = -1` it holds `FF FF`; for the event `Left`
with `leftInterval / 4 = 65537` the event-time field holds `00 01`. Clamping would give
`FF FF`, `00 00` and `FF FF`. The fixed ratio `FR = 70000`, handed to `put2u` without a
16-bit local in between, is clamped to `FF FF`. -/
theorem u16_fields_wrap :
    ((fresh.run wideDevice [49, 46, 50, 46, 51, 0] 1700000000 0 0).1.payload.drop 7).take 2
      = [0x00, 0x07] ∧
    ((fresh.run negativeIdDevice [49, 46, 50, 46, 51, 0] 1700000000 0 0).1.payload.drop 7).take 2
      = [0xFF, 0xFF] ∧
    ((fresh.run wideDevice [49, 46, 50, 46, 51, 0] 1700000000 0 0).1.payload.drop 19).take 2
      = [0x00, 0x01] ∧
    ((fresh.run wideDevice [49, 46, 50, 46, 51, 0] 1700000000 0 0).1.payload.drop 16).take 2
      = [0xFF, 0xFF] ∧
    be16 (clampU16 wideDevice.FED) = [0xFF, 0xFF] ∧
    be16 (clampU16 negativeIdDevice.FED) = [0x00, 0x00] ∧
    be16 (clampU16 (Int.tdiv wideDevice.leftInterval 4)) = [0xFF, 0xFF] ∧
    event_active wideDevice.Event = 1 := by
  have hw := run_payload_any fresh wideDevice [49, 46, 50, 46, 51, 0] 1700000000 0 0 (by decide)
  have hn := run_payload_any fresh negativeIdDevice [49, 46, 50, 46, 51, 0] 1700000000 0 0
    (by decide)
  have fw := payload_u16_fields (1700000000 % 4294967296)
    (versionBytes fresh [49, 46, 50, 46, 51, 0]) wideDevice rfl
  have fn := payload_u16_fields (1700000000 % 4294967296)
    (versionBytes fresh [49, 46, 50, 46, 51, 0]) negativeIdDevice rfl
  have ew := payload_event_fields (1700000000 % 4294967296)
    (versionBytes fresh [49, 46, 50, 46, 51, 0]) wideDevice rfl
  rw [hw, hn, fw.1, fn.1, ew.2, fw.2.1]
  decide

/-! ## What the put members leave alone -/

theorem crcShift_double (y : Nat) : crcShift (2 * y) = y := by
  rw [crcShift_eq]
  have h : ¬ (2 * y % 2 = 1) := by omega
  rw [if_neg h]
  omega

theorem crcShift_pow (n x : Nat) :
    (List.range n).foldl (fun t _ => crcShift t) (2 ^ n * x) = x := by
  induction n generalizing x with
  | zero => simp
  | succ k ih =>
    rw [List.range_succ, List.foldl_append]
    simp only [List.foldl_cons, List.foldl_nil]
    have e : 2 ^ (k + 1) * x = 2 ^ k * (2 * x) := by ring
    rw [e, ih (2 * x), crcShift_double]

theorem xor_low_byte (c : Nat) : c ^^^ (c % 256) = 2 ^ 8 * (c / 256) := by
  apply Nat.eq_of_testBit_eq
  intro i
  have e1 : c % 256 = c % 2 ^ 8 := by norm_num
  have e2 : c / 256 = c >>> 8 := by rw [Nat.shiftRight_eq_div_pow]
  rw [Nat.testBit_xor, e1, Nat.testBit_mod_two_pow, e2, Nat.testBit_mul_pow_two,
    Nat.testBit_shiftRight]
  by_cases h : i < 8
  · have h2 : ¬ (8 ≤ i) := by omega
    simp [h, h2]
  · have h2 : 8 ≤ i := by omega
    have h3 : 8 + (i - 8) = i := by omega
    simp [h, h2, h3]

theorem feed_byte (c b : Nat) (hb : b < 256) :
    (bitsLSBFirst b).foldl crc16Feed c
      = (List.range 8).foldl (fun t _ => crcShift t) (c ^^^ b) := by
  unfold bitsLSBFirst
  rw [crcShift_iter]
  have : b >>> 8 = 0 := by
    rw [Nat.shiftRight_eq_div_pow]
    exact Nat.div_eq_of_lt hb
  rw [this, Nat.xor_zero]

theorem crc16Modbus_append (msg t : List Nat) :
    crc16Modbus (msg ++ t)
      = t.foldl (fun crc b => (bitsLSBFirst b).foldl crc16Feed crc) (crc16Modbus msg) := by
  unfold crc16Modbus
  rw [List.foldl_append]

theorem crc16Modbus_residue (msg : List Nat) :
    crc16Modbus (msg ++ [crc16Modbus msg % 256, crc16Modbus msg / 256]) = 0 := by
  have hlt := crc16Modbus_lt msg
  rw [crc16Modbus_append]
  simp only [List.foldl_cons, List.foldl_nil]
  rw [feed_byte _ _ (Nat.mod_lt _ (by norm_num)), xor_low_byte, crcShift_pow,
    feed_byte _ _ (by omega), Nat.xor_self]
  have z := crcShift_pow 8 0
  simpa using z

theorem sendTxBuffer_written (s : FED3WAN) (millis : Nat) (hm : s.u8BufferSize ≤ 42)
    (hlen : s.au8Buffer.length = 44) (hb : ∀ b ∈ s.au8Buffer, b < 256) :
    (s.sendTxBuffer millis).2
      = s.au8Buffer.take s.u8BufferSize ++
          [crc16Modbus (s.au8Buffer.take s.u8BufferSize) % 256,
           crc16Modbus (s.au8Buffer.take s.u8BufferSize) / 256] ∧
    (s.sendTxBuffer millis).1.au8Buffer.take (s.u8BufferSize + 2) = (s.sendTxBuffer millis).2 := by
  have hc := calcCRC_eq s s.u8BufferSize (by omega) hb
  have hlt := crc16Modbus_lt (s.au8Buffer.take s.u8BufferSize)
  have hcb := crc_bytes (s.calcCRC s.u8BufferSize) (calcCRC_lt s s.u8BufferSize)
  have h1 : s.calcCRC s.u8BufferSize / 256 = crc16Modbus (s.au8Buffer.take s.u8BufferSize) % 256 := by
    rw [hc]
    unfold swap16
    omega
  have h2 : s.calcCRC s.u8BufferSize % 256 = crc16Modbus (s.au8Buffer.take s.u8BufferSize) / 256 := by
    rw [hc]
    unfold swap16
    omega
  have hm1 : (s.u8BufferSize + 1) % 256 = s.u8BufferSize + 1 := Nat.mod_eq_of_lt (by omega)
  have hm2 : (s.u8BufferSize + 1 + 1) % 256 = s.u8BufferSize + 2 := Nat.mod_eq_of_lt (by omega)
  have hx : (s.au8Buffer.take s.u8BufferSize).length = s.u8BufferSize := by
    rw [List.length_take]
    omega
  have hy : 2 ≤ (s.au8Buffer.drop s.u8BufferSize).length := by
    rw [List.length_drop]
    omega
  have ha := append_crc (s.au8Buffer.take s.u8BufferSize) (s.au8Buffer.drop s.u8BufferSize)
    s.u8BufferSize (crc16Modbus (s.au8Buffer.take s.u8BufferSize) % 256)
    (crc16Modbus (s.au8Buffer.take s.u8BufferSize) / 256) hx hy
  rw [List.take_append_drop] at ha
  have hw : (s.sendTxBuffer millis).2
      = ((s.au8Buffer.set s.u8BufferSize ((s.calcCRC s.u8BufferSize >>> 8) % 256)).set
          ((s.u8BufferSize + 1) % 256) ((s.calcCRC s.u8BufferSize &&& 0x00ff) % 256)).take
          (((s.u8BufferSize + 1) % 256 + 1) % 256) := rfl
  have hs : (s.sendTxBuffer millis).1.au8Buffer
      = (s.au8Buffer.set s.u8BufferSize ((s.calcCRC s.u8BufferSize >>> 8) % 256)).set
          ((s.u8BufferSize + 1) % 256) ((s.calcCRC s.u8BufferSize &&& 0x00ff) % 256) := rfl
  rw [hw, hs, hm1, hm2, hcb.1, hcb.2, h1, h2]
  exact ⟨ha, rfl⟩

/-- C18: checksum residue. For a header and message of `m ≤ 42` bytes in `au8Buffer`,
`sendTxBuffer` appends the low byte of the reference CRC first and the high byte second,
and `calcCRC` over all `m + 2` bytes of the completed frame returns 0, in the sender's
buffer and in every buffer that starts with the frame. -/
theorem checksum_residue (s : FED3WAN) (millis : Nat) (hm : s.u8BufferSize ≤ 42)
    (hlen : s.au8Buffer.length = 44) (hb : ∀ b ∈ s.au8Buffer, b < 256) :
    (s.sendTxBuffer millis).2
      = s.au8Buffer.take s.u8BufferSize ++
          [crc16Modbus (s.au8Buffer.take s.u8BufferSize) % 256,
           crc16Modbus (s.au8Buffer.take s.u8BufferSize) / 256] ∧
    (s.sendTxBuffer millis).2.length = s.u8BufferSize + 2 ∧
    (s.sendTxBuffer millis).1.calcCRC (s.u8BufferSize + 2) = 0 ∧
    (∀ s2 : FED3WAN,
      s2.au8Buffer.take (s.u8BufferSize + 2) = (s.sendTxBuffer millis).2 →
      s2.calcCRC (s.u8BufferSize + 2) = 0) := by
  have hw := sendTxBuffer_written s millis hm hlen hb
  have hlt := crc16Modbus_lt (s.au8Buffer.take s.u8BufferSize)
  have hx : (s.au8Buffer.take s.u8BufferSize).length = s.u8BufferSize := by
    rw [List.length_take]
    omega
  have hfl : (s.sendTxBuffer millis).2.length = s.u8BufferSize + 2 := by
    rw [hw.1, List.length_append, hx]
    rfl
  have hfb : ∀ b ∈ (s.sendTxBuffer millis).2, b < 256 := by
    intro b hmem
    rw [hw.1] at hmem
    rcases List.mem_append.mp hmem with h | h
    · exact hb b (List.mem_of_mem_take h)
    · simp only [List.mem_cons, List.mem_singleton, List.not_mem_nil, or_false] at h
      rcases h with h | h
      · rw [h]; omega
      · rw [h]; omega
  have hz : ({ s with au8Buffer := (s.sendTxBuffer millis).2 } : FED3WAN).calcCRC
      (s.u8BufferSize + 2) = 0 := by
    rw [calcCRC_eq _ _ (by show s.u8BufferSize + 2 ≤ (s.sendTxBuffer millis).2.length; omega) hfb]
    show swap16 (crc16Modbus ((s.sendTxBuffer millis).2.take (s.u8BufferSize + 2))) = 0
    rw [List.take_of_length_le (by omega), hw.1, crc16Modbus_residue]
    rfl
  have hall : ∀ s2 : FED3WAN,
      s2.au8Buffer.take (s.u8BufferSize + 2) = (s.sendTxBuffer millis).2 →
      s2.calcCRC (s.u8BufferSize + 2) = 0 := by
    intro s2 h2
    rw [← hz]
    apply calcCRC_congr
    show s2.au8Buffer.take (s.u8BufferSize + 2)
      = (s.sendTxBuffer millis).2.take (s.u8BufferSize + 2)
    rw [h2, List.take_of_length_le (by omega)]
  exact ⟨hw.1, hfl, hall _ hw.2, hall⟩

set_option maxRecDepth 8000 in
theorem headerStaged_frame :
    headerStaged.au8Buffer.take headerStaged.u8BufferSize ++
        [crc16Modbus (headerStaged.au8Buffer.take headerStaged.u8BufferSize) % 256,
         crc16Modbus (headerStaged.au8Buffer.take headerStaged.u8BufferSize) / 256]
      = [0x01, 0x00, 0x02, 0x02, 0xAA, 0xBB, 0x9F, 0x61] := by
  decide

/-- Instance of C18: for the header `01 00 02 02` and the message `AA BB` the frame
written is `01 00 02 02 AA BB 9F 61` and `calcCRC` over its 8 bytes returns 0. -/
theorem checksum_residue_witness :
    (headerStaged.sendTxBuffer 0).2 = [0x01, 0x00, 0x02, 0x02, 0xAA, 0xBB, 0x9F, 0x61] ∧
    (headerStaged.sendTxBuffer 0).1.calcCRC 8 = 0 :=
  ⟨(checksum_residue headerStaged 0 (by decide) (by decide) (by decide)).1.trans
      headerStaged_frame,
   (checksum_residue headerStaged 0 (by decide) (by decide) (by decide)).2.2.1⟩

/-! ## One cycle and two cycles -/

end FED3WAN
